import Mathlib

/-!
Verification development for the karaokebird overlay (src/main.py).

The embedding models the synchronization core of the program:

* `SpotifyReader.parse_lrc` (LRC text to timed lyric lines),
* the staleness correction in `SpotifyReader.poll_status`,
* `OverlayWindow.on_playback_sync` (the playback anchor tracker),
* the interpolation / active-line resolution / coalescing logic of
  `OverlayWindow.update_frame`.

Python strings are modelled as `List Char` and Python ints as exact
`Int`.  Python floats appear in two roles.  On the playback side
(wall-clock readings, track times) the claims are purely order-theoretic
and algebraic, so those floats are modelled as exact rationals (`ℚ`).
In the parser the claims depend on the exact computed values, so there
floats are modelled bit-exactly as IEEE-754 binary64: dyadic rationals
with 53-bit round-to-nearest-ties-to-even mantissas, overflow to
infinity, and the uncaught `OverflowError` paths of `int(float)` and
int-to-float conversion.  Fallible steps return `Option`; a `parse_lrc`
result of `none` models an exception escaping the whole call.  UI label
writes (the "fade out" bookkeeping of `update_frame`, which never
produces a line-change event) are outside the model; the display-update
event of interest is the `update_display(active_index)` call, modelled
as the `Option Int` component of `update_frame`'s result.
-/

set_option maxRecDepth 40000
set_option exponentiation.threshold 5000

/-- A parsed lyric line, `{"time": total_ms, "text": text}` in the source. -/
structure LyricLine where
  time : Int
  text : List Char
deriving DecidableEq, Repr

/-- One playback sample as emitted by `SpotifyReader.poll_status` through the
`playback_sync` signal: `(is_playing, int(position), int(duration), capture_time)`. -/
structure Sample where
  is_playing : Bool
  position : Int
  duration : Int
  capture_time : ℚ
deriving DecidableEq

/-- The mutable state of `OverlayWindow` that the synchronization core reads and
writes: the playback anchor (`is_playing`, `last_sync_track_time`,
`last_sync_sys_time`, `duration`), the lyric sequence, the last emitted line
index, and the `sync_offset_ms` setting. -/
structure OverlayWindow where
  is_playing : Bool
  last_sync_track_time : ℚ
  last_sync_sys_time : ℚ
  duration : Int
  lyrics_data : List LyricLine
  current_lyric_index : Int
  sync_offset_ms : ℚ
deriving DecidableEq

/-- The interpolated time `expected` computed in `on_playback_sync`:
`self.last_sync_track_time + (capture_time - self.last_sync_sys_time)`. -/
def expectedPos (st : OverlayWindow) (s : Sample) : ℚ :=
  st.last_sync_track_time + (s.capture_time - st.last_sync_sys_time)

/-- The drift `diff = position - expected` computed in `on_playback_sync`. -/
def syncDiff (st : OverlayWindow) (s : Sample) : ℚ :=
  (s.position : ℚ) - expectedPos st s

/-- `OverlayWindow.on_playback_sync`, lines 389-415 of src/main.py: the
"stretched monotonic sync" anchor update.  The trailing `self.update_frame()`
call on line 416 is modelled separately as `on_playback_sync_tick` (it needs
the current wall-clock reading, and it does not touch the anchor fields). -/
def on_playback_sync (st : OverlayWindow) (s : Sample) : OverlayWindow :=
  let st1 :=
    if st.is_playing && s.is_playing then
      if |syncDiff st s| > 2000 then
        { st with last_sync_track_time := (s.position : ℚ),
                  last_sync_sys_time := s.capture_time }
      else if syncDiff st s > 150 then
        { st with last_sync_track_time := (s.position : ℚ),
                  last_sync_sys_time := s.capture_time }
      else
        st
    else
      { st with last_sync_track_time := (s.position : ℚ),
                last_sync_sys_time := s.capture_time }
  { st1 with is_playing := s.is_playing, duration := s.duration }

/-- The interpolated current time of `update_frame` (lines 429-437):
`last_sync_track_time`, plus `now - last_sync_sys_time` when playing,
plus the `sync_offset_ms` setting. -/
def current_time (st : OverlayWindow) (now : ℚ) : ℚ :=
  (if st.is_playing then st.last_sync_track_time + (now - st.last_sync_sys_time)
   else st.last_sync_track_time) + st.sync_offset_ms

/-- The active-line search loop of `update_frame` (lines 441-446):
`active_index` starts at `-1`; each line with `time <= current_time` sets
`active_index := i`; the first later line breaks the loop. -/
def activeIndexLoop (t : ℚ) : List LyricLine → Nat → Int → Int
  | [], _, acc => acc
  | l :: ls, i, acc =>
      if (l.time : ℚ) ≤ t then activeIndexLoop t ls (i + 1) (i : Int) else acc

/-- The resolved active index for a lyric list at interpolated time `t`. -/
def findActiveIndex (lyrics : List LyricLine) (t : ℚ) : Int :=
  activeIndexLoop t lyrics 0 (-1)

/-- `OverlayWindow.update_frame` (lines 418-455), restricted to its
synchronization content: when lyrics are loaded, resolve the active index at
the interpolated time and emit `update_display(active_index)` exactly when the
index changed, recording the newly emitted index.  The second component is the
emitted display update (`none` when `update_display` is not called).  The
system-message fade-out label writes are not display-update events and are not
modelled. -/
def update_frame (st : OverlayWindow) (now : ℚ) : OverlayWindow × Option Int :=
  if st.lyrics_data = [] then (st, none)
  else
    let r := findActiveIndex st.lyrics_data (current_time st now)
    if r ≠ st.current_lyric_index then
      ({ st with current_lyric_index := r }, some r)
    else
      (st, none)

/-- The full `on_playback_sync` method including its trailing
`self.update_frame()` call (line 416), with `now` the wall-clock reading that
tick observes. -/
def on_playback_sync_tick (st : OverlayWindow) (s : Sample) (now : ℚ) :
    OverlayWindow × Option Int :=
  update_frame (on_playback_sync st s) now

/-- The staleness correction of `SpotifyReader.poll_status` (lines 89-96):
`position = raw_position_ms + elapsed_since_update` when
`0 <= elapsed_since_update < 10000`, else the raw position. -/
def corrected_position (raw_position_ms : ℚ) (elapsed_since_update : ℚ) : ℚ :=
  if 0 ≤ elapsed_since_update ∧ elapsed_since_update < 10000 then
    raw_position_ms + elapsed_since_update
  else
    raw_position_ms

lemma update_frame_fst_is_playing (st : OverlayWindow) (now : ℚ) :
    (update_frame st now).1.is_playing = st.is_playing := by
  unfold update_frame
  dsimp only
  split
  · rfl
  · split <;> rfl

lemma update_frame_fst_track_time (st : OverlayWindow) (now : ℚ) :
    (update_frame st now).1.last_sync_track_time = st.last_sync_track_time := by
  unfold update_frame
  dsimp only
  split
  · rfl
  · split <;> rfl

lemma update_frame_fst_sys_time (st : OverlayWindow) (now : ℚ) :
    (update_frame st now).1.last_sync_sys_time = st.last_sync_sys_time := by
  unfold update_frame
  dsimp only
  split
  · rfl
  · split <;> rfl

lemma update_frame_fst_duration (st : OverlayWindow) (now : ℚ) :
    (update_frame st now).1.duration = st.duration := by
  unfold update_frame
  dsimp only
  split
  · rfl
  · split <;> rfl

lemma on_playback_sync_snap_of_not_both (st : OverlayWindow) (s : Sample)
    (h : ¬(st.is_playing = true ∧ s.is_playing = true)) :
    (on_playback_sync st s).last_sync_track_time = (s.position : ℚ) ∧
    (on_playback_sync st s).last_sync_sys_time = s.capture_time := by
  unfold on_playback_sync
  have hb : (st.is_playing && s.is_playing) = false := by
    cases hp : st.is_playing <;> cases hq : s.is_playing <;> simp_all
  rw [hb]
  exact ⟨rfl, rfl⟩

lemma on_playback_sync_snap_of_jump (st : OverlayWindow) (s : Sample)
    (hp : st.is_playing = true) (hq : s.is_playing = true)
    (h : 2000 < |syncDiff st s| ∨ 150 < syncDiff st s) :
    (on_playback_sync st s).last_sync_track_time = (s.position : ℚ) ∧
    (on_playback_sync st s).last_sync_sys_time = s.capture_time := by
  unfold on_playback_sync
  rw [hp, hq]
  simp only [Bool.and_self, if_true]
  by_cases h1 : 2000 < |syncDiff st s|
  · rw [if_pos h1]
    exact ⟨rfl, rfl⟩
  · rw [if_neg h1]
    have h2 : 150 < syncDiff st s := by
      rcases h with h | h
      · exact absurd h h1
      · exact h
    rw [if_pos h2]
    exact ⟨rfl, rfl⟩

lemma on_playback_sync_ignore (st : OverlayWindow) (s : Sample)
    (hp : st.is_playing = true) (hq : s.is_playing = true)
    (hlo : -2000 ≤ syncDiff st s) (hhi : syncDiff st s ≤ 150) :
    (on_playback_sync st s).last_sync_track_time = st.last_sync_track_time ∧
    (on_playback_sync st s).last_sync_sys_time = st.last_sync_sys_time := by
  unfold on_playback_sync
  rw [hp, hq]
  simp only [Bool.and_self, if_true]
  have h1 : ¬(2000 < |syncDiff st s|) := by
    rw [not_lt, abs_le]
    constructor
    · linarith
    · linarith
  have h2 : ¬(150 < syncDiff st s) := not_lt.mpr hhi
  rw [if_neg h1, if_neg h2]
  exact ⟨rfl, rfl⟩

lemma on_playback_sync_flags (st : OverlayWindow) (s : Sample) :
    (on_playback_sync st s).is_playing = s.is_playing ∧
    (on_playback_sync st s).duration = s.duration := by
  unfold on_playback_sync
  exact ⟨rfl, rfl⟩

/-- C1: anchor update contract.  For every previous state and sample, when
both indicate playing, the method snaps (anchor becomes the sample's position
and capture time) exactly when `|diff| > 2000` or `diff > 150`, leaves the
anchor's track time and capture time unchanged when `-2000 ≤ diff ≤ 150`, and
snaps unconditionally when not both playing. -/
theorem C1_anchor_update_contract (st : OverlayWindow) (s : Sample) (now : ℚ) :
    (st.is_playing = true → s.is_playing = true →
      ((2000 < |syncDiff st s| ∨ 150 < syncDiff st s) →
        (on_playback_sync_tick st s now).1.last_sync_track_time = (s.position : ℚ) ∧
        (on_playback_sync_tick st s now).1.last_sync_sys_time = s.capture_time) ∧
      (-2000 ≤ syncDiff st s → syncDiff st s ≤ 150 →
        (on_playback_sync_tick st s now).1.last_sync_track_time =
          st.last_sync_track_time ∧
        (on_playback_sync_tick st s now).1.last_sync_sys_time =
          st.last_sync_sys_time)) ∧
    (¬(st.is_playing = true ∧ s.is_playing = true) →
      (on_playback_sync_tick st s now).1.last_sync_track_time = (s.position : ℚ) ∧
      (on_playback_sync_tick st s now).1.last_sync_sys_time = s.capture_time) := by
  unfold on_playback_sync_tick
  refine ⟨fun hp hq => ⟨fun h => ?_, fun hlo hhi => ?_⟩, fun h => ?_⟩
  · rw [update_frame_fst_track_time, update_frame_fst_sys_time]
    exact on_playback_sync_snap_of_jump st s hp hq h
  · rw [update_frame_fst_track_time, update_frame_fst_sys_time]
    exact on_playback_sync_ignore st s hp hq hlo hhi
  · rw [update_frame_fst_track_time, update_frame_fst_sys_time]
    exact on_playback_sync_snap_of_not_both st s h

/-- Example state for the C1 witness: anchor at track time 10000 captured at
wall clock 0, playing. -/
def wC1st : OverlayWindow :=
  { is_playing := true
    last_sync_track_time := 10000
    last_sync_sys_time := 0
    duration := 180000
    lyrics_data := []
    current_lyric_index := -1
    sync_offset_ms := 0 }

/-- Example sample for the C1 witness: position 50000 captured at 200 while
playing, a seek-sized jump (diff = 39800). -/
def wC1sample : Sample :=
  { is_playing := true
    position := 50000
    duration := 180000
    capture_time := 200 }

/-- C1 witness: the contract applied at a concrete seek-sized jump snaps the
anchor to the sample. -/
theorem C1_anchor_update_contract_witness :
    (on_playback_sync_tick wC1st wC1sample 300).1.last_sync_track_time =
      ((50000 : Int) : ℚ) ∧
    (on_playback_sync_tick wC1st wC1sample 300).1.last_sync_sys_time = 200 := by
  have h := ((C1_anchor_update_contract wC1st wC1sample 300).1 rfl rfl).1
  have hd : syncDiff wC1st wC1sample = 39800 := by
    norm_num [syncDiff, expectedPos, wC1st, wC1sample]
  have habs : (2000 : ℚ) < |syncDiff wC1st wC1sample| := by
    rw [hd, abs_of_nonneg (by norm_num)]
    norm_num
  exact h (Or.inl habs)

/-- C7: staleness correction.  A last-updated age in `[0, 10000)` is added to
the raw reported position before use; any age outside that interval leaves the
raw position unmodified. -/
theorem C7_staleness_correction (raw elapsed : ℚ) :
    (0 ≤ elapsed → elapsed < 10000 →
      corrected_position raw elapsed = raw + elapsed) ∧
    (elapsed < 0 ∨ 10000 ≤ elapsed → corrected_position raw elapsed = raw) := by
  constructor
  · intro h0 h1
    unfold corrected_position
    rw [if_pos ⟨h0, h1⟩]
  · intro h
    unfold corrected_position
    rw [if_neg]
    rintro ⟨h0, h1⟩
    rcases h with h | h
    · exact absurd h0 (not_le.mpr h)
    · exact absurd h1 (not_lt.mpr h)

/-- C7 witness: a fresh age of 500 ms is added; a stale age of 20000 ms is
ignored; a negative age of -1 ms is ignored. -/
theorem C7_staleness_correction_witness :
    corrected_position 100 500 = 100 + 500 ∧
    corrected_position 100 20000 = 100 ∧
    corrected_position 100 (-1) = 100 := by
  refine ⟨?_, ?_, ?_⟩
  · exact (C7_staleness_correction 100 500).1 (by norm_num) (by norm_num)
  · exact (C7_staleness_correction 100 20000).2 (Or.inr (by norm_num))
  · exact (C7_staleness_correction 100 (-1)).2 (Or.inl (by norm_num))

/-- C10: after every anchor-tracker update call the stored `is_playing` equals
the sample's flag and the stored `duration` equals the sample's duration, even
on the ignore branch, where the anchor's track time and capture time are left
unchanged. -/
theorem C10_flag_adoption (st : OverlayWindow) (s : Sample) (now : ℚ) :
    (on_playback_sync_tick st s now).1.is_playing = s.is_playing ∧
    (on_playback_sync_tick st s now).1.duration = s.duration ∧
    (st.is_playing = true → s.is_playing = true →
      -2000 ≤ syncDiff st s → syncDiff st s ≤ 150 →
      (on_playback_sync_tick st s now).1.last_sync_track_time =
        st.last_sync_track_time ∧
      (on_playback_sync_tick st s now).1.last_sync_sys_time =
        st.last_sync_sys_time) := by
  unfold on_playback_sync_tick
  refine ⟨?_, ?_, fun hp hq hlo hhi => ?_⟩
  · rw [update_frame_fst_is_playing]
    exact (on_playback_sync_flags st s).1
  · rw [update_frame_fst_duration]
    exact (on_playback_sync_flags st s).2
  · rw [update_frame_fst_track_time, update_frame_fst_sys_time]
    exact on_playback_sync_ignore st s hp hq hlo hhi

/-- Example sample for the C10 witness: within the ignore band
(expected 11000, reported 10500, diff = -500). -/
def wC10sample : Sample :=
  { is_playing := true
    position := 10500
    duration := 200000
    capture_time := 1000 }

/-- C10 witness: an ignored sample still installs the sample's playing flag
and duration while leaving the anchor pair untouched. -/
theorem C10_flag_adoption_witness :
    (on_playback_sync_tick wC1st wC10sample 1100).1.is_playing = true ∧
    (on_playback_sync_tick wC1st wC10sample 1100).1.duration = 200000 ∧
    (on_playback_sync_tick wC1st wC10sample 1100).1.last_sync_track_time = 10000 ∧
    (on_playback_sync_tick wC1st wC10sample 1100).1.last_sync_sys_time = 0 := by
  have h := C10_flag_adoption wC1st wC10sample 1100
  have hd : syncDiff wC1st wC10sample = -500 := by
    norm_num [syncDiff, expectedPos, wC1st, wC10sample]
  have hkeep := h.2.2 rfl rfl (by rw [hd]; norm_num) (by rw [hd]; norm_num)
  refine ⟨h.1, h.2.1, ?_, ?_⟩
  · rw [hkeep.1]
    rfl
  · rw [hkeep.2]
    rfl

lemma update_frame_fst_lyrics (st : OverlayWindow) (now : ℚ) :
    (update_frame st now).1.lyrics_data = st.lyrics_data := by
  unfold update_frame
  dsimp only
  split
  · rfl
  · split <;> rfl

lemma update_frame_fst_offset (st : OverlayWindow) (now : ℚ) :
    (update_frame st now).1.sync_offset_ms = st.sync_offset_ms := by
  unfold update_frame
  dsimp only
  split
  · rfl
  · split <;> rfl

lemma current_time_update_frame (st : OverlayWindow) (now x : ℚ) :
    current_time (update_frame st now).1 x = current_time st x := by
  unfold current_time
  rw [update_frame_fst_is_playing, update_frame_fst_track_time,
    update_frame_fst_sys_time, update_frame_fst_offset]

lemma activeIndexLoop_eq (t : ℚ) (l : List LyricLine) :
    ∀ i : Nat,
      activeIndexLoop t l i ((i : Int) - 1) =
        (i : Int) - 1 +
          ((l.takeWhile fun x => decide ((x.time : ℚ) ≤ t)).length : Int) := by
  induction l with
  | nil =>
      intro i
      simp [activeIndexLoop]
  | cons x ls ih =>
      intro i
      simp only [activeIndexLoop]
      by_cases hx : (x.time : ℚ) ≤ t
      · rw [if_pos hx]
        have h2 := ih (i + 1)
        have hcast : ((i + 1 : Nat) : Int) - 1 = (i : Int) := by push_cast; ring
        rw [hcast] at h2
        rw [h2, List.takeWhile_cons, if_pos (decide_eq_true hx)]
        simp only [List.length_cons]
        push_cast
        ring
      · rw [if_neg hx, List.takeWhile_cons,
          if_neg (by simpa using hx)]
        simp

lemma findActiveIndex_eq (lyrics : List LyricLine) (t : ℚ) :
    findActiveIndex lyrics t =
      -1 + ((lyrics.takeWhile fun x => decide ((x.time : ℚ) ≤ t)).length : Int) := by
  have h := activeIndexLoop_eq t lyrics 0
  unfold findActiveIndex
  simpa using h

lemma takeWhile_length_le {α : Type} (p : α → Bool) (l : List α) :
    (l.takeWhile p).length ≤ l.length := by
  induction l with
  | nil => simp
  | cons x ls ih =>
      rw [List.takeWhile_cons]
      by_cases hx : p x = true
      · rw [if_pos hx]
        simpa using ih
      · rw [if_neg hx]
        simp

lemma takeWhile_length_le_of_imp {α : Type} (p q : α → Bool) (l : List α)
    (h : ∀ x, p x = true → q x = true) :
    (l.takeWhile p).length ≤ (l.takeWhile q).length := by
  induction l with
  | nil => simp
  | cons x ls ih =>
      rw [List.takeWhile_cons, List.takeWhile_cons]
      by_cases hx : p x = true
      · rw [if_pos hx, if_pos (h x hx)]
        simpa using ih
      · rw [if_neg hx]
        simp

lemma takeWhile_mem_iff_of_sorted (t : ℚ) (l : List LyricLine)
    (hs : l.Pairwise (fun a b => a.time ≤ b.time)) :
    ∀ (i : Nat) (hi : i < l.length),
      (((l.get ⟨i, hi⟩).time : ℚ) ≤ t ↔
        i < (l.takeWhile fun x => decide ((x.time : ℚ) ≤ t)).length) := by
  induction l with
  | nil =>
      intro i hi
      exact absurd hi (by simp)
  | cons x ls ih =>
      rw [List.pairwise_cons] at hs
      intro i hi
      by_cases hx : (x.time : ℚ) ≤ t
      · rw [List.takeWhile_cons, if_pos (decide_eq_true hx)]
        cases i with
        | zero =>
            simpa using hx
        | succ j =>
            have hj : j < ls.length := by
              simpa [Nat.succ_lt_succ_iff] using hi
            have hch := ih hs.2 j hj
            have hget : (x :: ls).get ⟨j + 1, hi⟩ = ls.get ⟨j, hj⟩ := rfl
            rw [hget, hch]
            simp [Nat.succ_lt_succ_iff]
      · rw [List.takeWhile_cons, if_neg (by simpa using hx)]
        simp only [List.length_nil, Nat.not_lt_zero, iff_false]
        cases i with
        | zero => simpa using hx
        | succ j =>
            have hj : j < ls.length := by
              simpa [Nat.succ_lt_succ_iff] using hi
            have hget : (x :: ls).get ⟨j + 1, hi⟩ = ls.get ⟨j, hj⟩ := rfl
            rw [hget]
            intro hle
            have hmem : ls.get ⟨j, hj⟩ ∈ ls := by
              exact List.get_mem ls j hj
            have hxy : x.time ≤ (ls.get ⟨j, hj⟩).time := hs.1 _ hmem
            have hxq : (x.time : ℚ) ≤ ((ls.get ⟨j, hj⟩).time : ℚ) := by
              exact_mod_cast hxy
            exact hx (le_trans hxq hle)

/-- C2: cursor resolution.  For every window state (anchor, `sync_offset_ms`)
and wall-clock reading, with the lyric sequence sorted non-decreasing by time,
the resolved index lies in `[-1, length)` and is the greatest index whose time
is at most the interpolated current time (the `↔` characterization); and when
not playing the result is independent of the wall-clock reading. -/
theorem C2_cursor_resolution (st : OverlayWindow) (now : ℚ)
    (hsorted : st.lyrics_data.Pairwise (fun a b => a.time ≤ b.time)) :
    (-1 ≤ findActiveIndex st.lyrics_data (current_time st now) ∧
      findActiveIndex st.lyrics_data (current_time st now) <
        (st.lyrics_data.length : Int)) ∧
    (∀ i : Fin st.lyrics_data.length,
      (((st.lyrics_data.get i).time : ℚ) ≤ current_time st now ↔
        ((i : Nat) : Int) ≤ findActiveIndex st.lyrics_data (current_time st now))) ∧
    (st.is_playing = false →
      ∀ now2 : ℚ,
        findActiveIndex st.lyrics_data (current_time st now2) =
          findActiveIndex st.lyrics_data (current_time st now)) := by
  set t := current_time st now with ht
  rw [findActiveIndex_eq]
  refine ⟨⟨?_, ?_⟩, ?_, ?_⟩
  · have := (st.lyrics_data.takeWhile
      fun x => decide ((x.time : ℚ) ≤ t)).length
    omega
  · have hle := takeWhile_length_le
      (fun x => decide ((x.time : ℚ) ≤ t)) st.lyrics_data
    omega
  · intro i
    have hch := takeWhile_mem_iff_of_sorted t st.lyrics_data hsorted i.1 i.2
    have harith : ((i : Nat) <
        (st.lyrics_data.takeWhile fun x => decide ((x.time : ℚ) ≤ t)).length) ↔
        (((i : Nat) : Int) ≤ -1 +
          ((st.lyrics_data.takeWhile fun x => decide ((x.time : ℚ) ≤ t)).length :
            Int)) := by
      omega
    exact (hch.trans harith)
  · intro hnp now2
    have hsame : current_time st now2 = t := by
      rw [ht]
      unfold current_time
      rw [hnp]
      simp
    rw [hsame, findActiveIndex_eq]

/-- Example window for the C2 witness: two lyric lines at 1000 and 3000 ms,
anchor frozen (paused) at track time 2500. -/
def wC2st : OverlayWindow :=
  { is_playing := false
    last_sync_track_time := 2500
    last_sync_sys_time := 0
    duration := 180000
    lyrics_data := [⟨1000, ['a']⟩, ⟨3000, ['b']⟩]
    current_lyric_index := -1
    sync_offset_ms := 0 }

/-- C2 witness: at current time 2500 over lines {1000, 3000} the resolved
index is within bounds, line 0 satisfies the greatest-index characterization,
and pausing makes the result independent of the wall clock. -/
theorem C2_cursor_resolution_witness :
    (-1 ≤ findActiveIndex wC2st.lyrics_data (current_time wC2st 999) ∧
      findActiveIndex wC2st.lyrics_data (current_time wC2st 999) < 2) ∧
    (((wC2st.lyrics_data.get ⟨0, by norm_num [wC2st]⟩).time : ℚ) ≤
        current_time wC2st 999 ↔
      (0 : Int) ≤ findActiveIndex wC2st.lyrics_data (current_time wC2st 999)) ∧
    findActiveIndex wC2st.lyrics_data (current_time wC2st 77777) =
      findActiveIndex wC2st.lyrics_data (current_time wC2st 999) := by
  have hs : wC2st.lyrics_data.Pairwise (fun a b => a.time ≤ b.time) := by
    simp [wC2st, List.pairwise_cons]
  have h := C2_cursor_resolution wC2st 999 hs
  refine ⟨⟨h.1.1, ?_⟩, ?_, ?_⟩
  · have h2 := h.1.2
    simpa [wC2st] using h2
  · exact h.2.1 ⟨0, by norm_num [wC2st]⟩
  · exact h.2.2 rfl 77777

/-- C3: cursor monotonicity.  For a playing anchor, a sorted lyric sequence,
and two instants `a < b` with no intervening anchor update, the index resolved
at `a` is at most the index resolved at `b`. -/
theorem C3_cursor_monotonicity (st : OverlayWindow) (a b : ℚ)
    (hplay : st.is_playing = true)
    (_hsorted : st.lyrics_data.Pairwise (fun x y => x.time ≤ y.time))
    (hab : a < b) :
    findActiveIndex st.lyrics_data (current_time st a) ≤
      findActiveIndex st.lyrics_data (current_time st b) := by
  have htime : current_time st a ≤ current_time st b := by
    unfold current_time
    rw [hplay]
    simp only [if_true]
    linarith
  rw [findActiveIndex_eq, findActiveIndex_eq]
  have hmono := takeWhile_length_le_of_imp
    (fun x => decide ((x.time : ℚ) ≤ current_time st a))
    (fun x => decide ((x.time : ℚ) ≤ current_time st b))
    st.lyrics_data
    (fun x hx => decide_eq_true (le_trans (of_decide_eq_true hx) htime))
  omega

/-- Example window for the C3 witness: playing anchor, two lines. -/
def wC3st : OverlayWindow :=
  { is_playing := true
    last_sync_track_time := 500
    last_sync_sys_time := 0
    duration := 180000
    lyrics_data := [⟨1000, ['a']⟩, ⟨3000, ['b']⟩]
    current_lyric_index := -1
    sync_offset_ms := 0 }

/-- C3 witness: monotonicity applied at the concrete instants 0 and 4000. -/
theorem C3_cursor_monotonicity_witness :
    findActiveIndex wC3st.lyrics_data (current_time wC3st 0) ≤
      findActiveIndex wC3st.lyrics_data (current_time wC3st 4000) := by
  have hs : wC3st.lyrics_data.Pairwise (fun x y => x.time ≤ y.time) := by
    simp [wC3st, List.pairwise_cons]
  exact C3_cursor_monotonicity wC3st 0 4000 rfl hs (by norm_num)

lemma update_frame_snd_eq (st : OverlayWindow) (now : ℚ)
    (h : st.lyrics_data ≠ []) :
    (update_frame st now).2 =
      if findActiveIndex st.lyrics_data (current_time st now) =
          st.current_lyric_index then none
      else some (findActiveIndex st.lyrics_data (current_time st now)) := by
  unfold update_frame
  rw [if_neg h]
  dsimp only
  by_cases hr : findActiveIndex st.lyrics_data (current_time st now) =
      st.current_lyric_index
  · rw [if_neg (fun hne => hne hr), if_pos hr]
  · rw [if_pos hr, if_neg hr]

lemma update_frame_fst_index (st : OverlayWindow) (now : ℚ)
    (h : st.lyrics_data ≠ []) :
    (update_frame st now).1.current_lyric_index =
      findActiveIndex st.lyrics_data (current_time st now) := by
  unfold update_frame
  rw [if_neg h]
  dsimp only
  by_cases hr : findActiveIndex st.lyrics_data (current_time st now) =
      st.current_lyric_index
  · rw [if_neg (fun hne => hne hr)]
    exact hr.symm
  · rw [if_pos hr]

/-- C8: coalescing.  On a render tick with lyrics loaded, a display update is
emitted exactly when the resolved index differs from the previously emitted
one; the state then records the resolved index, and any further tick whose
resolved index is unchanged emits nothing. -/
theorem C8_coalescing (st : OverlayWindow) (now : ℚ)
    (h : st.lyrics_data ≠ []) :
    ((update_frame st now).2 =
      if findActiveIndex st.lyrics_data (current_time st now) =
          st.current_lyric_index then none
      else some (findActiveIndex st.lyrics_data (current_time st now))) ∧
    (update_frame st now).1.current_lyric_index =
      findActiveIndex st.lyrics_data (current_time st now) ∧
    (∀ now2 : ℚ,
      findActiveIndex st.lyrics_data (current_time st now2) =
        findActiveIndex st.lyrics_data (current_time st now) →
      (update_frame (update_frame st now).1 now2).2 = none) := by
  refine ⟨update_frame_snd_eq st now h, update_frame_fst_index st now h, ?_⟩
  intro now2 hsame
  have hl : (update_frame st now).1.lyrics_data ≠ [] := by
    rw [update_frame_fst_lyrics]
    exact h
  rw [update_frame_snd_eq (update_frame st now).1 now2 hl]
  rw [update_frame_fst_lyrics, current_time_update_frame,
    update_frame_fst_index st now h, hsame]
  simp

/-- Example window for the C8 witness: one line at 1000 ms, frozen track time
2000, last emitted index -1, so the first tick emits index 0 and repeated
ticks stay silent. -/
def wC8st : OverlayWindow :=
  { is_playing := false
    last_sync_track_time := 2000
    last_sync_sys_time := 0
    duration := 180000
    lyrics_data := [⟨1000, ['a']⟩]
    current_lyric_index := -1
    sync_offset_ms := 0 }

/-- C8 witness: the first concrete tick emits the line change to index 0 and
the immediately following tick emits nothing. -/
theorem C8_coalescing_witness :
    (update_frame wC8st 0).2 = some 0 ∧
    (update_frame (update_frame wC8st 0).1 50).2 = none := by
  have h := C8_coalescing wC8st 0 (by simp [wC8st])
  have hr : findActiveIndex wC8st.lyrics_data (current_time wC8st 0) = 0 := by
    norm_num [wC8st, findActiveIndex, activeIndexLoop, current_time]
  constructor
  · rw [h.1, hr]
    norm_num [wC8st]
  · refine h.2.2 50 ?_
    rw [hr]
    norm_num [wC8st, findActiveIndex, activeIndexLoop, current_time]

/-- Python `str.strip` whitespace class (space, tab, newline, carriage return,
vertical tab, form feed). -/
def pyIsSpace (c : Char) : Bool :=
  c == ' ' || c == '\t' || c == '\n' || c == '\r' || c == '\x0b' || c == '\x0c'

/-- Python `str.strip()`: remove leading and trailing whitespace. -/
def pyStrip (l : List Char) : List Char :=
  ((l.dropWhile pyIsSpace).reverse.dropWhile pyIsSpace).reverse

/-- Python `str.split(sep)` for a single-character separator: always returns a
non-empty list of (possibly empty) chunks. -/
def splitOnChar (c : Char) : List Char → List (List Char)
  | [] => [[]]
  | x :: xs =>
      if x = c then [] :: splitOnChar c xs
      else
        match splitOnChar c xs with
        | [] => [[x]]
        | y :: ys => (x :: y) :: ys

/-- Numeric value of a digit string (most significant digit first). -/
def digitsVal (l : List Char) : Nat :=
  l.foldl (fun a c => a * 10 + (c.toNat - 48)) 0

/-- A non-empty all-digit string parsed to its value, `none` otherwise. -/
def parseDigits (l : List Char) : Option Nat :=
  if l ≠ [] ∧ l.all Char.isDigit = true then some (digitsVal l) else none

/-- Python `int(str)` on the strings this program feeds it: surrounding
whitespace stripped, an optional single sign, then a non-empty ASCII digit
string; anything else raises `ValueError`, modelled as `none`.  (Python's
exotic acceptances - underscore separators, non-ASCII digits - are outside
the model.) -/
def pyIntCore : List Char → Option Int
  | [] => none
  | c :: rest =>
      if c = '+' then (parseDigits rest).map (fun n : Nat => (n : Int))
      else if c = '-' then (parseDigits rest).map (fun n : Nat => -(n : Int))
      else (parseDigits (c :: rest)).map (fun n : Nat => (n : Int))

/-- Python `int(str)` strips surrounding whitespace first. -/
def pyInt (l : List Char) : Option Int :=
  pyIntCore (pyStrip l)


/-- A Python float: an IEEE-754 binary64 value, as the dyadic rational
`m * 2^e` (finite, `|m| < 2^53`) or an infinity.  NaN and subnormal values
are outside the modelled scope: no input reachable in this development
produces them (`float("nan")` leads to a caught `ValueError` in `int()`,
the same observable outcome as rejecting the string). -/
inductive F64 where
  | finite (m : Int) (e : Int)
  | inf (pos : Bool)
deriving DecidableEq, Repr

/-- Decide `2^k ≤ p / q` for naturals `p ≥ 1`, `q ≥ 1`. -/
def le2pow (p q : Nat) (k : Int) : Bool :=
  if 0 ≤ k then decide (q * 2 ^ k.toNat ≤ p) else decide (q ≤ p * 2 ^ (-k).toNat)

/-- Binary search for `⌊log2 (p/q)⌋`, on the invariant `2^lo ≤ p/q < 2^hi`. -/
def searchE (p q : Nat) : Nat → Int → Int → Int
  | 0, lo, _ => lo
  | fuel + 1, lo, hi =>
      if hi ≤ lo + 1 then lo
      else
        let mid := lo + (hi - lo) / 2
        if le2pow p q mid then searchE p q fuel mid hi
        else searchE p q fuel lo mid

/-- `⌊log2 (p/q)⌋` over the exponent window `[-2000, 3000)`, which covers
every magnitude reachable by the program's arithmetic (doubles overflow to
infinity far below `2^3000`, and subnormals are outside the model). -/
def floorLog2 (p q : Nat) : Int :=
  searchE p q 20 (-2000) 3000

/-- Round the rational `±(p/q) * 2^e` (`p = 0` allowed) to binary64:
53 significant bits, round to nearest, ties to even; a result of magnitude
at least `2^1024` overflows to infinity. -/
def roundF64core (p q : Nat) (e : Int) (pos : Bool) : F64 :=
  if p = 0 then .finite 0 0
  else
    let e0 : Int := floorLog2 p q
    let shift : Int := e0 - 52
    let N : Nat := if shift ≤ 0 then p * 2 ^ (-shift).toNat else p
    let D : Nat := if shift ≤ 0 then q else q * 2 ^ shift.toNat
    let qt : Nat := N / D
    let r : Nat := N % D
    let m0 : Nat :=
      if 2 * r < D then qt
      else if D < 2 * r then qt + 1
      else if qt % 2 = 0 then qt else qt + 1
    let me : Nat × Int := if m0 = 2 ^ 53 then (2 ^ 52, shift + 1) else (m0, shift)
    let e3 : Int := me.2 + e
    if 972 ≤ e3 then .inf pos
    else .finite (if pos then (me.1 : Int) else -(me.1 : Int)) e3

/-- Negation of a binary64 value (for a leading `-` sign in `float(str)`). -/
def fneg : F64 → F64
  | .finite m e => .finite (-m) e
  | .inf b => .inf (!b)

/-- Binary64 addition: the exact dyadic sum, rounded; an infinite operand
propagates (the `inf + -inf = nan` case is unreachable in the model's use). -/
def fadd : F64 → F64 → F64
  | .finite m1 e1, .finite m2 e2 =>
      if e1 ≤ e2 then
        roundF64core (m1 + m2 * 2 ^ (e2 - e1).toNat).natAbs 1 e1
          (decide (0 ≤ m1 + m2 * 2 ^ (e2 - e1).toNat))
      else
        roundF64core (m1 * 2 ^ (e1 - e2).toNat + m2).natAbs 1 e2
          (decide (0 ≤ m1 * 2 ^ (e1 - e2).toNat + m2))
  | .inf b, .finite _ _ => .inf b
  | .finite _ _, .inf b => .inf b
  | .inf b, .inf _ => .inf b

/-- Binary64 multiplication: the exact product, rounded; an infinite operand
yields an infinity of the combined sign (the `inf * 0 = nan` case is
unreachable in the model's use). -/
def fmul : F64 → F64 → F64
  | .finite m1 e1, .finite m2 e2 =>
      roundF64core (m1 * m2).natAbs 1 (e1 + e2) (decide (0 ≤ m1 * m2))
  | .inf b, .finite m _ => .inf (b == decide (0 ≤ m))
  | .finite m _, .inf b => .inf (b == decide (0 ≤ m))
  | .inf b, .inf c => .inf (b == c)

/-- The literal `1000` of `(...) * 1000`, exactly representable. -/
def F1000 : F64 := .finite 1000 0

/-- CPython int-to-double conversion, as it happens implicitly in
`minutes * 60 + seconds`: round to nearest, and raise `OverflowError`
(modelled as `none`) when the integer exceeds the double range. -/
def intToF64 (n : Int) : Option F64 :=
  match roundF64core n.natAbs 1 0 (decide (0 ≤ n)) with
  | .inf _ => none
  | f => some f

/-- Python `int(float)`: truncation toward zero; `int(±inf)` raises
`OverflowError` (modelled as `none`), which `except (ValueError,
IndexError)` does not catch. -/
def pyTrunc : F64 → Option Int
  | .finite m e =>
      some (if 0 ≤ e then m * 2 ^ e.toNat
        else if 0 ≤ m then ((m.toNat / 2 ^ (-e).toNat : Nat) : Int)
        else -(((-m).toNat / 2 ^ (-e).toNat : Nat) : Int))
  | .inf _ => none

/-- The unsigned part of Python `float(str)`: decimal digit forms `digits`,
`digits.digits`, `digits.` and `.digits`, rounded to the nearest binary64,
and the case-insensitive `inf`/`infinity` words; anything else raises
`ValueError` (`none`).  Exponent forms such as `1e3`, `nan`, hexadecimal
floats and underscore separators are outside the modelled scope. -/
def pyFloatMag (l : List Char) : Option F64 :=
  if l.map Char.toLower = ['i', 'n', 'f'] ∨
      l.map Char.toLower = ['i', 'n', 'f', 'i', 'n', 'i', 't', 'y'] then
    some (.inf true)
  else
    match splitOnChar '.' l with
    | [a] =>
        if a ≠ [] ∧ a.all Char.isDigit = true then
          some (roundF64core (digitsVal a) 1 0 true)
        else none
    | [a, b] =>
        if (a ≠ [] ∨ b ≠ []) ∧ a.all Char.isDigit = true ∧
            b.all Char.isDigit = true then
          some (roundF64core (digitsVal a * 10 ^ b.length + digitsVal b)
            (10 ^ b.length) 0 true)
        else none
    | _ => none

def pyFloatCore : List Char → Option F64
  | [] => none
  | c :: rest =>
      if c = '+' then pyFloatMag rest
      else if c = '-' then (pyFloatMag rest).map fneg
      else pyFloatMag (c :: rest)

/-- Python `float(str)`: surrounding whitespace stripped, then an optionally
signed magnitude. -/
def pyFloat (l : List Char) : Option F64 :=
  pyFloatCore (pyStrip l)

/-- Python slice `l[a:b]` for `0 ≤ a, b`. -/
def pySlice (l : List Char) (a b : Nat) : List Char :=
  (l.take b).drop a


/-- Outcome of one iteration of the `parse_lrc` loop body on a line: a parsed
entry, the line silently dropped (missing bracket, or a `ValueError` or
`IndexError` caught by `except` at main.py:168), or an uncaught exception
(`OverflowError`) that escapes the whole call. -/
inductive LineOutcome where
  | ok (ll : LyricLine)
  | dropped
  | raised
deriving DecidableEq, Repr

/-- One iteration of the `parse_lrc` loop body (lines 152-169 of src/main.py)
on a single line: find the first `[` and `]`, split the substring between
them on `:`, parse minutes with `int` and seconds with `float`, and build
`{"time": int((minutes*60+seconds)*1000), "text": ...}` in binary64
arithmetic.  A missing bracket, or a `ValueError`/`IndexError`, drops the
line; the `OverflowError` from converting an oversized `minutes * 60` to
float, or from `int(±inf)`, is not caught and aborts `parse_lrc`. -/
def parseLine (line : List Char) : LineOutcome :=
  match line.findIdx? (fun c => c == '['), line.findIdx? (fun c => c == ']') with
  | some s, some e =>
      match splitOnChar ':' (pySlice line (s + 1) e) with
      | p0 :: p1 :: _ =>
          match pyInt p0, pyFloat p1 with
          | some m, some sec =>
              match intToF64 (m * 60) with
              | none => .raised
              | some mf =>
                  match pyTrunc (fmul (fadd mf sec) F1000) with
                  | none => .raised
                  | some t => .ok ⟨t, pyStrip (line.drop (e + 1))⟩
          | _, _ => .dropped
      | _ => .dropped
  | _, _ => .dropped

/-- The comparison key of `lyrics.sort(key=lambda x: x["time"])`. -/
def lyricLe (a b : LyricLine) : Bool :=
  decide (a.time ≤ b.time)


/-- The accumulation loop of `parse_lrc` (lines 149-169): blank lines are
skipped, parsed lines collected in order, caught-error lines dropped, and an
uncaught exception (`none`) aborts the whole call. -/
def collectLines : List (List Char) → Option (List LyricLine)
  | [] => some []
  | line :: rest =>
      if pyStrip line = [] then collectLines rest
      else
        match parseLine line with
        | .raised => none
        | .dropped => collectLines rest
        | .ok ll => (collectLines rest).map (fun ls => ll :: ls)

/-- The parsed-and-sorted stage of `parse_lrc` (lines 148-172): split the
blob on newlines, run the loop, stable-sort by time; `none` when a line
raised. -/
def parsedSorted (lrc_string : List Char) : Option (List LyricLine) :=
  (collectLines (splitOnChar '\n' lrc_string)).map
    (fun lyrics => lyrics.mergeSort lyricLe)

/-- `SpotifyReader.parse_lrc` (lines 146-183): the sorted parse result, with
the synthetic `{"time": 5000, "text": "..."}` intro-gap line prepended when
the sequence is non-empty and its first time exceeds 8000 ms; `none` models
an uncaught exception escaping the call. -/
def parse_lrc (lrc_string : List Char) : Option (List LyricLine) :=
  match parsedSorted lrc_string with
  | none => none
  | some [] => some []
  | some (first :: rest) =>
      if first.time > 8000 then
        some (⟨5000, ['.', '.', '.']⟩ :: first :: rest)
      else some (first :: rest)

lemma digit_ne_of (c d : Char) (h : c.isDigit = true) (hd : d.isDigit = false) :
    c ≠ d := by
  intro he
  rw [he, hd] at h
  exact Bool.noConfusion h

lemma digit_not_space (c : Char) (h : c.isDigit = true) : pyIsSpace c = false := by
  cases hsp : pyIsSpace c
  · rfl
  · exfalso
    unfold pyIsSpace at hsp
    simp only [Bool.or_eq_true, beq_iff_eq] at hsp
    rcases hsp with ((((rfl | rfl) | rfl) | rfl) | rfl) | rfl <;>
      exact absurd h (by decide)

lemma all_digit_not_space (l : List Char) (h : l.all Char.isDigit = true) :
    ∀ c ∈ l, pyIsSpace c = false :=
  fun c hc => digit_not_space c (List.all_eq_true.mp h c hc)

lemma not_mem_of_all_digit (l : List Char) (h : l.all Char.isDigit = true)
    (d : Char) (hd : d.isDigit = false) : d ∉ l := by
  intro hm
  rw [List.all_eq_true.mp h d hm] at hd
  exact Bool.noConfusion hd

lemma splitOnChar_ne_nil (c : Char) (l : List Char) : splitOnChar c l ≠ [] := by
  induction l with
  | nil => simp [splitOnChar]
  | cons x xs ih =>
      by_cases hx : x = c
      · simp [splitOnChar, hx]
      · cases hsp : splitOnChar c xs with
        | nil => exact absurd hsp ih
        | cons y ys => simp [splitOnChar, hx, hsp]

lemma splitOnChar_of_not_mem (c : Char) (l : List Char) (h : c ∉ l) :
    splitOnChar c l = [l] := by
  induction l with
  | nil => rfl
  | cons x xs ih =>
      have hx : ¬x = c := by
        intro he
        subst he
        exact h (List.mem_cons_self x xs)
      have hxs : c ∉ xs := fun hc => h (List.mem_cons_of_mem x hc)
      simp [splitOnChar, hx, ih hxs]

lemma splitOnChar_append (c : Char) (a b : List Char) (h : c ∉ a) :
    splitOnChar c (a ++ c :: b) = a :: splitOnChar c b := by
  induction a with
  | nil => simp [splitOnChar]
  | cons x xs ih =>
      have hx : ¬x = c := by
        intro he
        subst he
        exact h (List.mem_cons_self x xs)
      have hxs : c ∉ xs := fun hc => h (List.mem_cons_of_mem x hc)
      rw [List.cons_append]
      simp [splitOnChar, hx, ih hxs]

lemma mem_of_mem_splitOnChar (c : Char) (l : List Char) :
    ∀ x ∈ splitOnChar c l, ∀ a ∈ x, a ∈ l := by
  induction l with
  | nil =>
      intro x hx a ha
      simp [splitOnChar] at hx
      subst hx
      exact absurd ha (by simp)
  | cons z zs ih =>
      intro x hx a ha
      by_cases hz : z = c
      · rw [splitOnChar, if_pos hz] at hx
        rcases List.mem_cons.mp hx with rfl | hx
        · exact absurd ha (by simp)
        · exact List.mem_cons_of_mem z (ih x hx a ha)
      · rw [splitOnChar, if_neg hz] at hx
        cases hsp : splitOnChar c zs with
        | nil => exact absurd hsp (splitOnChar_ne_nil c zs)
        | cons y ys =>
            rw [hsp] at hx
            rcases List.mem_cons.mp hx with rfl | hx
            · rcases List.mem_cons.mp ha with rfl | ha
              · exact List.mem_cons_self a zs
              · exact List.mem_cons_of_mem z
                  (ih y (hsp ▸ List.mem_cons_self y ys) a ha)
            · exact List.mem_cons_of_mem z
                (ih x (hsp ▸ List.mem_cons_of_mem y hx) a ha)

lemma dropWhile_eq_self_of_forall (p : Char → Bool) (l : List Char)
    (h : ∀ c ∈ l, p c = false) : l.dropWhile p = l := by
  cases l with
  | nil => rfl
  | cons x xs =>
      rw [List.dropWhile_cons, if_neg]
      rw [h x (List.mem_cons_self x xs)]
      simp

lemma pyStrip_eq_self (l : List Char) (h : ∀ c ∈ l, pyIsSpace c = false) :
    pyStrip l = l := by
  unfold pyStrip
  rw [dropWhile_eq_self_of_forall _ _ h,
    dropWhile_eq_self_of_forall _ _ (fun c hc => h c (List.mem_reverse.mp hc)),
    List.reverse_reverse]

lemma pyStrip_eq_nil_forall (l : List Char) (h : pyStrip l = []) :
    ∀ c ∈ l, pyIsSpace c = true := by
  unfold pyStrip at h
  rw [List.reverse_eq_nil_iff, List.dropWhile_eq_nil_iff] at h
  have hdrop : ∀ c ∈ l.dropWhile pyIsSpace, pyIsSpace c = true :=
    fun c hc => h c (List.mem_reverse.mpr hc)
  intro c hc
  rw [← List.takeWhile_append_dropWhile pyIsSpace l] at hc
  rcases List.mem_append.mp hc with hc | hc
  · exact List.mem_takeWhile_imp hc
  · exact hdrop c hc

lemma pyStrip_ne_nil_of (l : List Char) (c : Char) (hc : c ∈ l)
    (hns : pyIsSpace c = false) : pyStrip l ≠ [] := by
  intro h
  rw [pyStrip_eq_nil_forall l h c hc] at hns
  exact Bool.noConfusion hns

lemma mem_pyStrip (l : List Char) : ∀ c ∈ pyStrip l, c ∈ l := by
  intro c hc
  unfold pyStrip at hc
  rw [List.mem_reverse] at hc
  have h1 := (List.dropWhile_sublist pyIsSpace).subset hc
  rw [List.mem_reverse] at h1
  exact (List.dropWhile_sublist pyIsSpace).subset h1

lemma findIdx?_from (p : Char → Bool) (a : List Char) (x : Char) (b : List Char)
    (ha : ∀ y ∈ a, p y = false) (hx : p x = true) :
    ∀ s : Nat, List.findIdx? p (a ++ x :: b) s = some (a.length + s) := by
  induction a with
  | nil =>
      intro s
      simp [List.findIdx?_cons, hx]
  | cons z a' ih =>
      intro s
      have hz : ¬(p z = true) := by
        rw [ha z (List.mem_cons_self z a')]
        simp
      rw [List.cons_append, List.findIdx?_cons, if_neg hz,
        ih (fun y hy => ha y (List.mem_cons_of_mem z hy)) (s + 1)]
      congr 1
      rw [List.length_cons]
      omega

lemma drop_append_cons (a : List Char) (x : Char) (b : List Char) :
    (a ++ x :: b).drop (a.length + 1) = b := by
  induction a with
  | nil => simp
  | cons z a' ih =>
      rw [List.cons_append, List.length_cons]
      rw [show a'.length + 1 + 1 = (a'.length + 1) + 1 from rfl,
        List.drop_succ_cons]
      exact ih

lemma pyInt_digits (l : List Char) (h1 : l ≠ []) (h2 : l.all Char.isDigit = true) :
    pyInt l = some ((digitsVal l : Int)) := by
  unfold pyInt
  rw [pyStrip_eq_self l (all_digit_not_space l h2)]
  cases l with
  | nil => exact absurd rfl h1
  | cons d ds =>
      have hd : d.isDigit = true :=
        List.all_eq_true.mp h2 d (List.mem_cons_self d ds)
      rw [pyIntCore, if_neg (digit_ne_of d '+' hd (by decide)),
        if_neg (digit_ne_of d '-' hd (by decide))]
      unfold parseDigits
      rw [if_pos ⟨by simp, h2⟩]
      rfl

lemma pyInt_neg_digits (l : List Char) (h1 : l ≠ [])
    (h2 : l.all Char.isDigit = true) :
    pyInt ('-' :: l) = some (-(digitsVal l : Int)) := by
  unfold pyInt
  have hns : ∀ c ∈ '-' :: l, pyIsSpace c = false := by
    intro c hc
    rcases List.mem_cons.mp hc with rfl | hc
    · decide
    · exact all_digit_not_space l h2 c hc
  rw [pyStrip_eq_self _ hns, pyIntCore, if_neg (by decide), if_pos rfl]
  unfold parseDigits
  rw [if_pos ⟨h1, h2⟩]
  rfl

lemma pyInt_nonneg (l : List Char) (m : Int) (h : '-' ∉ l)
    (hm : pyInt l = some m) : 0 ≤ m := by
  unfold pyInt at hm
  have hns : '-' ∉ pyStrip l := fun hc => h (mem_pyStrip l '-' hc)
  cases hst : pyStrip l with
  | nil =>
      rw [hst, pyIntCore] at hm
      exact absurd hm (by simp)
  | cons d ds =>
      rw [hst] at hm hns
      have hd : ¬(d = '-') := by
        intro he
        rw [he] at hns
        exact hns (List.mem_cons_self '-' ds)
      rw [pyIntCore] at hm
      by_cases hplus : d = '+'
      · rw [if_pos hplus] at hm
        rcases Option.map_eq_some'.mp hm with ⟨n, -, rfl⟩
        show (0 : Int) ≤ (n : Int)
        exact_mod_cast Nat.zero_le n
      · rw [if_neg hplus, if_neg hd] at hm
        rcases Option.map_eq_some'.mp hm with ⟨n, -, rfl⟩
        show (0 : Int) ≤ (n : Int)
        exact_mod_cast Nat.zero_le n

lemma findIdx?_head_true (p : Char → Bool) (x : Char) (l : List Char)
    (hx : p x = true) : List.findIdx? p (x :: l) = some 0 := by
  simp [List.findIdx?_cons, hx]

/-- An abstract well-formed LRC line `[mm:ss.xx]text`: the raw digit strings
of the minutes, integer-seconds and fractional-seconds fields, and the text
after the closing bracket. -/
structure RawLrcLine where
  minutes : List Char
  secInt : List Char
  secFrac : List Char
  text : List Char

/-- Well-formedness of an abstract LRC line: non-empty digit fields, a
two-digit fractional part (the `.xx` of the format), and single-line text. -/
def wellFormedRaw (r : RawLrcLine) : Prop :=
  r.minutes ≠ [] ∧ r.minutes.all Char.isDigit = true ∧
  r.secInt ≠ [] ∧ r.secInt.all Char.isDigit = true ∧
  r.secFrac.length = 2 ∧ r.secFrac.all Char.isDigit = true ∧
  '\n' ∉ r.text

instance (r : RawLrcLine) : Decidable (wellFormedRaw r) := by
  unfold wellFormedRaw
  infer_instance

/-- The concrete text `[mm:ss.xx]text` of an abstract LRC line. -/
def renderRawLine (r : RawLrcLine) : List Char :=
  '[' :: r.minutes ++ ':' :: (r.secInt ++ '.' :: r.secFrac) ++ ']' :: r.text

lemma not_mem_secStr (b1 b2 : List Char) (h1 : b1.all Char.isDigit = true)
    (h2 : b2.all Char.isDigit = true) (d : Char) (hd : d.isDigit = false)
    (hdot : d ≠ '.') : d ∉ b1 ++ '.' :: b2 := by
  intro hm
  rcases List.mem_append.mp hm with hm | hm
  · exact not_mem_of_all_digit b1 h1 d hd hm
  · rcases List.mem_cons.mp hm with he | hm
    · exact hdot he
    · exact not_mem_of_all_digit b2 h2 d hd hm

/-- Join lines with newline separators (the inverse of the `split("\n")` the
parser starts with). -/
def joinLines : List (List Char) → List Char
  | [] => []
  | [l] => l
  | l :: l2 :: ls => l ++ '\n' :: joinLines (l2 :: ls)

/-- A well-formed LRC blob: the rendered lines joined by newlines. -/
def blobOf (rs : List RawLrcLine) : List Char :=
  joinLines (rs.map renderRawLine)

lemma splitOnChar_joinLines (ls : List (List Char)) (hne : ls ≠ [])
    (h : ∀ l ∈ ls, '\n' ∉ l) :
    splitOnChar '\n' (joinLines ls) = ls := by
  induction ls with
  | nil => exact absurd rfl hne
  | cons l rest ih =>
      cases rest with
      | nil =>
          show splitOnChar '\n' (joinLines [l]) = [l]
          rw [joinLines]
          exact splitOnChar_of_not_mem '\n' l (h l (List.mem_cons_self l []))
      | cons l2 ls' =>
          rw [joinLines,
            splitOnChar_append '\n' l _ (h l (List.mem_cons_self l (l2 :: ls'))),
            ih (by simp) (fun x hx => h x (List.mem_cons_of_mem l hx))]

lemma newline_not_mem_render (r : RawLrcLine) (h : wellFormedRaw r) :
    '\n' ∉ renderRawLine r := by
  obtain ⟨-, h2, -, h4, -, h6, h7⟩ := h
  intro hm
  unfold renderRawLine at hm
  rcases List.mem_append.mp hm with hm | hm
  · rcases List.mem_append.mp hm with hm | hm
    · rcases List.mem_cons.mp hm with he | hm
      · exact absurd he (by decide)
      · exact not_mem_of_all_digit r.minutes h2 '\n' (by decide) hm
    · rcases List.mem_cons.mp hm with he | hm
      · exact absurd he (by decide)
      · exact not_mem_secStr r.secInt r.secFrac h4 h6 '\n' (by decide)
          (by decide) hm
  · rcases List.mem_cons.mp hm with he | hm
    · exact absurd he (by decide)
    · exact h7 hm

lemma pyStrip_render_ne_nil (r : RawLrcLine) : pyStrip (renderRawLine r) ≠ [] := by
  apply pyStrip_ne_nil_of (renderRawLine r) '['
  · unfold renderRawLine
    rw [List.cons_append, List.cons_append]
    exact List.mem_cons_self '[' _
  · decide

/-- First line of the C4 witness blob: `[00:05.00]hi` (5000 ms). -/
def wR1 : RawLrcLine := ⟨['0', '0'], ['0', '5'], ['0', '0'], ['h', 'i']⟩

/-- Second line of the C4 witness blob: `[00:09.10]yo` (9100 ms). -/
def wR2 : RawLrcLine := ⟨['0', '0'], ['0', '9'], ['1', '0'], ['y', 'o']⟩
/-- The C5 example line `[00:09.00]hi` (9000 ms, triggering the intro gap). -/
def wC5 : RawLrcLine := ⟨['0', '0'], ['0', '9'], ['0', '0'], ['h', 'i']⟩

/-- The C5 example line `[00:07.00]hi` (7000 ms, no intro gap). -/
def wC5b : RawLrcLine := ⟨['0', '0'], ['0', '7'], ['0', '0'], ['h', 'i']⟩
/-- Valid C6 line `[00:05.00]a`. -/
def wV1 : RawLrcLine := ⟨['0', '0'], ['0', '5'], ['0', '0'], ['a']⟩

/-- Valid C6 line `[00:20.00]b`. -/
def wV2 : RawLrcLine := ⟨['0', '0'], ['2', '0'], ['0', '0'], ['b']⟩

/-- Valid C6 line `[00:30.00]c`. -/
def wV3 : RawLrcLine := ⟨['0', '0'], ['3', '0'], ['0', '0'], ['c']⟩

/-- Malformed C6 line `[00:40.00 no` (missing closing bracket). -/
def badLine1 : List Char :=
  ['[', '0', '0', ':', '4', '0', '.', '0', '0', ' ', 'n', 'o']

/-- Malformed C6 line `[00:xx]d` (non-numeric seconds). -/
def badLine2 : List Char := ['[', '0', '0', ':', 'x', 'x', ']', 'd']

/-- The C6 blob: three valid lines mixed with two malformed ones. -/
def exC6 : List Char :=
  joinLines [renderRawLine wV1, badLine1, renderRawLine wV2, badLine2,
    renderRawLine wV3]

/-- An all-unparseable blob for the C6 witness. -/
def wGarbage : List Char := ['z', 'z']
/-- The C9 counterexample blob, the single line `[-1:30.00]x`: a negative
minutes field that Python's `int` accepts. -/
def exC9 : List Char :=
  '[' :: ['-', '1'] ++ ':' :: (['3', '0'] ++ '.' :: ['0', '0']) ++ ']' :: ['x']
/-- The single line `[00:05.00]hi` used by the C9 witness blob. -/
def wC9w : RawLrcLine := ⟨['0', '0'], ['0', '5'], ['0', '0'], ['h', 'i']⟩

/-- Non-negativity of a modelled float value. -/
def F64.nonneg : F64 → Prop
  | .finite m _ => 0 ≤ m
  | .inf b => b = true

lemma nonneg_mk (c : Prop) [Decidable c] (k : Nat) (x : Int) :
    (if c then F64.inf true
     else F64.finite (if true = true then (k : Int) else -(k : Int)) x).nonneg := by
  by_cases h : c
  · rw [if_pos h]
    rfl
  · rw [if_neg h, if_pos rfl]
    show (0 : Int) ≤ (k : Int)
    exact_mod_cast Nat.zero_le k

lemma roundF64core_nonneg (p q : Nat) (e : Int) :
    (roundF64core p q e true).nonneg := by
  unfold roundF64core
  split
  · exact le_refl (0 : Int)
  · dsimp only
    exact nonneg_mk _ _ _

lemma F1000_nonneg : F1000.nonneg := by
  show (0 : Int) ≤ 1000
  norm_num

lemma fadd_nonneg (x y : F64) (hx : x.nonneg) (hy : y.nonneg) :
    (fadd x y).nonneg := by
  cases x with
  | finite m1 e1 =>
      cases y with
      | finite m2 e2 =>
          have h1 : (0 : Int) ≤ m1 := hx
          have h2 : (0 : Int) ≤ m2 := hy
          unfold fadd
          dsimp only
          by_cases he : e1 ≤ e2
          · rw [if_pos he]
            have hn : (0 : Int) ≤ m1 + m2 * 2 ^ (e2 - e1).toNat :=
              add_nonneg h1 (mul_nonneg h2 (by positivity))
            rw [decide_eq_true hn]
            exact roundF64core_nonneg _ _ _
          · rw [if_neg he]
            have hn : (0 : Int) ≤ m1 * 2 ^ (e1 - e2).toNat + m2 :=
              add_nonneg (mul_nonneg h1 (by positivity)) h2
            rw [decide_eq_true hn]
            exact roundF64core_nonneg _ _ _
      | inf b =>
          have hb : b = true := hy
          subst hb
          rfl
  | inf b =>
      have hb : b = true := hx
      subst hb
      cases y <;> rfl

lemma fmul_nonneg (x y : F64) (hx : x.nonneg) (hy : y.nonneg) :
    (fmul x y).nonneg := by
  cases x with
  | finite m1 e1 =>
      cases y with
      | finite m2 e2 =>
          have h1 : (0 : Int) ≤ m1 := hx
          have h2 : (0 : Int) ≤ m2 := hy
          unfold fmul
          dsimp only
          rw [decide_eq_true (mul_nonneg h1 h2)]
          exact roundF64core_nonneg _ _ _
      | inf b =>
          have hb : b = true := hy
          subst hb
          have h1 : (0 : Int) ≤ m1 := hx
          show (true == decide (0 ≤ m1)) = true
          rw [decide_eq_true h1]
          rfl
  | inf b =>
      have hb : b = true := hx
      subst hb
      cases y with
      | finite m2 e2 =>
          have h2 : (0 : Int) ≤ m2 := hy
          show (true == decide (0 ≤ m2)) = true
          rw [decide_eq_true h2]
          rfl
      | inf c =>
          have hc : c = true := hy
          subst hc
          rfl

lemma intToF64_nonneg (n : Int) (f : F64) (hn : 0 ≤ n)
    (hf : intToF64 n = some f) : f.nonneg := by
  unfold intToF64 at hf
  rw [decide_eq_true hn] at hf
  have h := roundF64core_nonneg n.natAbs 1 0
  cases hr : roundF64core n.natAbs 1 0 true with
  | inf b =>
      rw [hr] at hf
      exact absurd hf (by simp)
  | finite m e =>
      rw [hr] at hf
      dsimp only at hf
      injection hf with hf
      rw [← hf]
      rw [hr] at h
      exact h

lemma pyTrunc_nonneg_of (f : F64) (t : Int) (hf : f.nonneg)
    (ht : pyTrunc f = some t) : 0 ≤ t := by
  cases f with
  | inf b => exact absurd ht (by simp [pyTrunc])
  | finite m e =>
      have hm : (0 : Int) ≤ m := hf
      unfold pyTrunc at ht
      injection ht with ht
      rw [← ht]
      by_cases he : 0 ≤ e
      · rw [if_pos he]
        exact mul_nonneg hm (by positivity)
      · rw [if_neg he, if_pos hm]
        exact_mod_cast Nat.zero_le _

lemma pyFloat_digits (a b : List Char) (ha : a ≠ [])
    (hda : a.all Char.isDigit = true) (hdb : b.all Char.isDigit = true) :
    pyFloat (a ++ '.' :: b) =
      some (roundF64core (digitsVal a * 10 ^ b.length + digitsVal b)
        (10 ^ b.length) 0 true) := by
  unfold pyFloat
  have hns : ∀ c ∈ a ++ '.' :: b, pyIsSpace c = false := by
    intro c hc
    rcases List.mem_append.mp hc with hc | hc
    · exact all_digit_not_space a hda c hc
    · rcases List.mem_cons.mp hc with rfl | hc
      · decide
      · exact all_digit_not_space b hdb c hc
  rw [pyStrip_eq_self _ hns]
  cases a with
  | nil => exact absurd rfl ha
  | cons d ds =>
      have hd : d.isDigit = true := by
        have := List.all_eq_true.mp hda d (List.mem_cons_self d ds)
        simpa using this
      rw [List.cons_append]
      rw [pyFloatCore]
      rw [if_neg (digit_ne_of d '+' hd (by decide)),
        if_neg (digit_ne_of d '-' hd (by decide)), ← List.cons_append]
      unfold pyFloatMag
      have hlow : ¬(((d :: ds) ++ '.' :: b).map Char.toLower = ['i', 'n', 'f'] ∨
          ((d :: ds) ++ '.' :: b).map Char.toLower =
            ['i', 'n', 'f', 'i', 'n', 'i', 't', 'y']) := by
        have hdot : '.' ∈ ((d :: ds) ++ '.' :: b).map Char.toLower :=
          List.mem_map.mpr ⟨'.',
            List.mem_append.mpr (Or.inr (List.mem_cons_self _ _)), by decide⟩
        rintro (hh | hh) <;> (rw [hh] at hdot; exact absurd hdot (by decide))
      rw [if_neg hlow]
      rw [splitOnChar_append '.' (d :: ds) b
          (not_mem_of_all_digit (d :: ds) hda '.' (by decide)),
        splitOnChar_of_not_mem '.' b
          (not_mem_of_all_digit b hdb '.' (by decide))]
      dsimp only
      rw [if_pos ⟨Or.inl (by simp), hda, hdb⟩]

lemma pyFloatMag_nonneg (l : List Char) (f : F64)
    (hq : pyFloatMag l = some f) : f.nonneg := by
  unfold pyFloatMag at hq
  by_cases hinf : (l.map Char.toLower = ['i', 'n', 'f'] ∨
      l.map Char.toLower = ['i', 'n', 'f', 'i', 'n', 'i', 't', 'y'])
  · rw [if_pos hinf] at hq
    injection hq with hq
    rw [← hq]
    rfl
  · rw [if_neg hinf] at hq
    cases hsp : splitOnChar '.' l with
    | nil =>
        rw [hsp] at hq
        exact absurd hq (by simp)
    | cons y ys =>
        rw [hsp] at hq
        cases ys with
        | nil =>
            dsimp only at hq
            by_cases hc : y ≠ [] ∧ y.all Char.isDigit = true
            · rw [if_pos hc] at hq
              injection hq with hq
              rw [← hq]
              exact roundF64core_nonneg _ _ _
            · rw [if_neg hc] at hq
              exact absurd hq (by simp)
        | cons z zs =>
            cases zs with
            | nil =>
                dsimp only at hq
                by_cases hc : (y ≠ [] ∨ z ≠ []) ∧ y.all Char.isDigit = true ∧
                    z.all Char.isDigit = true
                · rw [if_pos hc] at hq
                  injection hq with hq
                  rw [← hq]
                  exact roundF64core_nonneg _ _ _
                · rw [if_neg hc] at hq
                  exact absurd hq (by simp)
            | cons w ws =>
                dsimp only at hq
                exact absurd hq (by simp)

lemma pyFloat_nonneg (l : List Char) (f : F64) (h : '-' ∉ l)
    (hq : pyFloat l = some f) : f.nonneg := by
  unfold pyFloat at hq
  have hsub : '-' ∉ pyStrip l := fun hc => h (mem_pyStrip l '-' hc)
  cases hs : pyStrip l with
  | nil =>
      rw [hs] at hq
      exact absurd hq (by simp [pyFloatCore])
  | cons c rest =>
      rw [hs] at hq
      rw [hs] at hsub
      rw [pyFloatCore] at hq
      by_cases hc : c = '+'
      · rw [if_pos hc] at hq
        exact pyFloatMag_nonneg rest f hq
      · rw [if_neg hc] at hq
        have hcm : ¬(c = '-') := by
          intro hcc
          apply hsub
          rw [← hcc]
          exact List.mem_cons_self c rest
        rw [if_neg hcm] at hq
        exact pyFloatMag_nonneg (c :: rest) f hq

lemma parseLine_structured (mstr sstr text : List Char) (m : Int) (sec : F64)
    (t : Int)
    (hmb : ']' ∉ mstr) (hsb : ']' ∉ sstr)
    (hmc : ':' ∉ mstr) (hsc : ':' ∉ sstr)
    (hint : pyInt mstr = some m) (hflt : pyFloat sstr = some sec)
    (hmf : ∃ mf, intToF64 (m * 60) = some mf ∧
      pyTrunc (fmul (fadd mf sec) F1000) = some t) :
    parseLine ('[' :: mstr ++ ':' :: sstr ++ ']' :: text) =
      LineOutcome.ok ⟨t, pyStrip text⟩ := by
  obtain ⟨mf, hmf1, hmf2⟩ := hmf
  have hAall : ∀ y ∈ '[' :: mstr ++ ':' :: sstr, (y == ']') = false := by
    intro y hy
    rw [beq_eq_false_iff_ne]
    rcases List.mem_append.mp hy with hy | hy
    · rcases List.mem_cons.mp hy with rfl | hy
      · decide
      · intro he
        rw [he] at hy
        exact hmb hy
    · rcases List.mem_cons.mp hy with rfl | hy
      · decide
      · intro he
        rw [he] at hy
        exact hsb hy
  have hfind1 : List.findIdx? (fun c => c == '[')
      ('[' :: mstr ++ ':' :: sstr ++ ']' :: text) = some 0 := by
    rw [List.cons_append, List.cons_append]
    exact findIdx?_head_true _ '[' _ (by decide)
  have hfind2 : List.findIdx? (fun c => c == ']')
      ('[' :: mstr ++ ':' :: sstr ++ ']' :: text) =
      some (('[' :: mstr ++ ':' :: sstr).length) := by
    simpa using findIdx?_from (fun c => c == ']') ('[' :: mstr ++ ':' :: sstr)
      ']' text hAall (by decide) 0
  have hslice : pySlice ('[' :: mstr ++ ':' :: sstr ++ ']' :: text)
      (0 + 1) (('[' :: mstr ++ ':' :: sstr).length) = mstr ++ ':' :: sstr := by
    unfold pySlice
    rw [List.take_left, List.cons_append]
    rfl
  have hsplit : splitOnChar ':' (mstr ++ ':' :: sstr) = [mstr, sstr] := by
    rw [splitOnChar_append ':' mstr sstr hmc, splitOnChar_of_not_mem ':' sstr hsc]
  have hdrop : ('[' :: mstr ++ ':' :: sstr ++ ']' :: text).drop
      (('[' :: mstr ++ ':' :: sstr).length + 1) = text :=
    drop_append_cons _ ']' text
  unfold parseLine
  rw [hfind1, hfind2]
  dsimp only
  rw [hslice, hsplit]
  dsimp only
  rw [hint, hflt]
  dsimp only
  rw [hmf1]
  dsimp only
  rw [hmf2]
  dsimp only
  rw [hdrop]

/-- The binary64 value of the seconds field, `float("ss.xx")`. -/
def secondsF64 (r : RawLrcLine) : F64 :=
  roundF64core (digitsVal r.secInt * 10 ^ r.secFrac.length + digitsVal r.secFrac)
    (10 ^ r.secFrac.length) 0 true

/-- The binary64 evaluation `int((minutes*60 + seconds) * 1000)` of a line's
timestamp; `none` models an uncaught `OverflowError`. -/
def floatTimeOfRaw (r : RawLrcLine) : Option Int :=
  match intToF64 ((digitsVal r.minutes : Int) * 60) with
  | none => none
  | some mf => pyTrunc (fmul (fadd mf (secondsF64 r)) F1000)

/-- The computed timestamp of a line whose evaluation does not overflow. -/
def timeValF (r : RawLrcLine) : Int :=
  (floatTimeOfRaw r).getD 0

lemma parseLine_render (r : RawLrcLine) (h : wellFormedRaw r)
    (hok : floatTimeOfRaw r = some (timeValF r)) :
    parseLine (renderRawLine r) = LineOutcome.ok ⟨timeValF r, pyStrip r.text⟩ := by
  obtain ⟨h1, h2, h3, h4, -, h6, -⟩ := h
  have hint := pyInt_digits r.minutes h1 h2
  have hflt : pyFloat (r.secInt ++ '.' :: r.secFrac) = some (secondsF64 r) :=
    pyFloat_digits r.secInt r.secFrac h3 h4 h6
  unfold floatTimeOfRaw at hok
  cases hmf : intToF64 ((digitsVal r.minutes : Int) * 60) with
  | none =>
      rw [hmf] at hok
      exact absurd hok (by simp)
  | some mf =>
      rw [hmf] at hok
      dsimp only at hok
      have hstruct := parseLine_structured r.minutes (r.secInt ++ '.' :: r.secFrac)
        r.text (digitsVal r.minutes : Int) (secondsF64 r) (timeValF r)
        (not_mem_of_all_digit r.minutes h2 ']' (by decide))
        (not_mem_secStr r.secInt r.secFrac h4 h6 ']' (by decide) (by decide))
        (not_mem_of_all_digit r.minutes h2 ':' (by decide))
        (not_mem_secStr r.secInt r.secFrac h4 h6 ':' (by decide) (by decide))
        hint hflt ⟨mf, hmf, hok⟩
      rw [renderRawLine]
      exact hstruct

lemma collectLines_cons_blank (x : List Char) (xs : List (List Char))
    (h : pyStrip x = []) : collectLines (x :: xs) = collectLines xs := by
  simp only [collectLines]
  rw [if_pos h]

lemma collectLines_cons_dropped (x : List Char) (xs : List (List Char))
    (h1 : pyStrip x ≠ []) (h2 : parseLine x = LineOutcome.dropped) :
    collectLines (x :: xs) = collectLines xs := by
  simp only [collectLines]
  rw [if_neg h1, h2]

lemma collectLines_cons_ok (x : List Char) (xs : List (List Char))
    (ll : LyricLine) (h1 : pyStrip x ≠ []) (h2 : parseLine x = LineOutcome.ok ll) :
    collectLines (x :: xs) = (collectLines xs).map (fun ls => ll :: ls) := by
  simp only [collectLines]
  rw [if_neg h1, h2]

lemma collectLines_cons_raised (x : List Char) (xs : List (List Char))
    (h1 : pyStrip x ≠ []) (h2 : parseLine x = LineOutcome.raised) :
    collectLines (x :: xs) = none := by
  simp only [collectLines]
  rw [if_neg h1, h2]

lemma collectLines_map_ok {α : Type} (f : α → List Char) (g : α → LyricLine)
    (xs : List α)
    (h : ∀ x ∈ xs, pyStrip (f x) ≠ [] ∧ parseLine (f x) = LineOutcome.ok (g x)) :
    collectLines (xs.map f) = some (xs.map g) := by
  induction xs with
  | nil => rfl
  | cons x xs ih =>
      have hx := h x (List.mem_cons_self x xs)
      rw [List.map_cons, collectLines_cons_ok (f x) (xs.map f) (g x) hx.1 hx.2,
        ih (fun y hy => h y (List.mem_cons_of_mem x hy))]
      rfl

lemma collectLines_all_dropped (ls : List (List Char))
    (h : ∀ l ∈ ls, pyStrip l = [] ∨ parseLine l = LineOutcome.dropped) :
    collectLines ls = some [] := by
  induction ls with
  | nil => rfl
  | cons x xs ih =>
      have hrest := ih (fun y hy => h y (List.mem_cons_of_mem x hy))
      rcases h x (List.mem_cons_self x xs) with hx | hx
      · rw [collectLines_cons_blank x xs hx, hrest]
      · by_cases hb : pyStrip x = []
        · rw [collectLines_cons_blank x xs hb, hrest]
        · rw [collectLines_cons_dropped x xs hb hx, hrest]

lemma collectLines_isSome (ls : List (List Char))
    (h : ∀ l ∈ ls, pyStrip l = [] ∨ parseLine l ≠ LineOutcome.raised) :
    ∃ out, collectLines ls = some out := by
  induction ls with
  | nil => exact ⟨[], rfl⟩
  | cons x xs ih =>
      obtain ⟨out, hout⟩ := ih (fun y hy => h y (List.mem_cons_of_mem x hy))
      by_cases hb : pyStrip x = []
      · exact ⟨out, by rw [collectLines_cons_blank x xs hb, hout]⟩
      · rcases h x (List.mem_cons_self x xs) with hx | hx
        · exact absurd hx hb
        · cases hp : parseLine x with
          | raised => exact absurd hp hx
          | dropped => exact ⟨out, by rw [collectLines_cons_dropped x xs hb hp, hout]⟩
          | ok ll =>
              exact ⟨ll :: out,
                by rw [collectLines_cons_ok x xs ll hb hp, hout]; rfl⟩

lemma collectLines_mem (ls : List (List Char)) (out : List LyricLine)
    (h : collectLines ls = some out) :
    ∀ ll ∈ out, ∃ l ∈ ls, parseLine l = LineOutcome.ok ll := by
  induction ls generalizing out with
  | nil =>
      intro ll hll
      injection h with h
      rw [← h] at hll
      exact absurd hll (by simp)
  | cons x xs ih =>
      intro ll hll
      by_cases hb : pyStrip x = []
      · rw [collectLines_cons_blank x xs hb] at h
        obtain ⟨l, hl, hpl⟩ := ih out h ll hll
        exact ⟨l, List.mem_cons_of_mem x hl, hpl⟩
      · cases hp : parseLine x with
        | raised =>
            rw [collectLines_cons_raised x xs hb hp] at h
            exact absurd h (by simp)
        | dropped =>
            rw [collectLines_cons_dropped x xs hb hp] at h
            obtain ⟨l, hl, hpl⟩ := ih out h ll hll
            exact ⟨l, List.mem_cons_of_mem x hl, hpl⟩
        | ok l0 =>
            rw [collectLines_cons_ok x xs l0 hb hp] at h
            rcases Option.map_eq_some'.mp h with ⟨ls0, hls0, hcons⟩
            rw [← hcons] at hll
            rcases List.mem_cons.mp hll with rfl | hll
            · exact ⟨x, List.mem_cons_self x xs, hp⟩
            · obtain ⟨l, hl, hpl⟩ := ih ls0 hls0 ll hll
              exact ⟨l, List.mem_cons_of_mem x hl, hpl⟩

lemma parse_lrc_of_sorted_nil (s : List Char) (h : parsedSorted s = some []) :
    parse_lrc s = some [] := by
  unfold parse_lrc
  rw [h]

lemma parse_lrc_of_sorted_none (s : List Char) (h : parsedSorted s = none) :
    parse_lrc s = none := by
  unfold parse_lrc
  rw [h]

lemma parse_lrc_of_sorted_cons (s : List Char) (first : LyricLine)
    (rest : List LyricLine) (h : parsedSorted s = some (first :: rest)) :
    parse_lrc s = some (if first.time > 8000
      then ⟨5000, ['.', '.', '.']⟩ :: first :: rest else first :: rest) := by
  unfold parse_lrc
  rw [h]
  dsimp only
  by_cases hc : first.time > 8000
  · rw [if_pos hc, if_pos hc]
  · rw [if_neg hc, if_neg hc]

lemma parse_lrc_of_unparseable (s : List Char)
    (h : ∀ line ∈ splitOnChar '\n' s,
      pyStrip line = [] ∨ parseLine line = LineOutcome.dropped) :
    parse_lrc s = some [] := by
  apply parse_lrc_of_sorted_nil
  unfold parsedSorted
  rw [collectLines_all_dropped _ h]
  show some (List.mergeSort [] lyricLe) = some []
  rw [List.mergeSort_of_sorted List.Pairwise.nil]

lemma parsedSorted_blobOf (rs : List RawLrcLine)
    (hwf : ∀ r ∈ rs, wellFormedRaw r)
    (hok : ∀ r ∈ rs, floatTimeOfRaw r = some (timeValF r))
    (hasc : (rs.map timeValF).Pairwise (· ≤ ·)) :
    parsedSorted (blobOf rs) =
      some (rs.map (fun r => ⟨timeValF r, pyStrip r.text⟩)) := by
  cases rs with
  | nil =>
      have h2 : collectLines (splitOnChar '\n' (blobOf [])) = some [] := rfl
      rw [parsedSorted, h2]
      show some (List.mergeSort [] lyricLe) = some []
      rw [List.mergeSort_of_sorted List.Pairwise.nil]
  | cons r0 rs' =>
      unfold parsedSorted blobOf
      rw [splitOnChar_joinLines ((r0 :: rs').map renderRawLine) (by simp)
          (by
            intro x hx
            rcases List.mem_map.mp hx with ⟨r, hr, rfl⟩
            exact newline_not_mem_render r (hwf r hr))]
      rw [collectLines_map_ok renderRawLine
          (fun r => (⟨timeValF r, pyStrip r.text⟩ : LyricLine)) (r0 :: rs')
          (fun r hr => ⟨pyStrip_render_ne_nil r,
            parseLine_render r (hwf r hr) (hok r hr)⟩)]
      show some (List.mergeSort ((r0 :: rs').map
        (fun r => (⟨timeValF r, pyStrip r.text⟩ : LyricLine))) lyricLe) = _
      have hp0 : List.Pairwise (fun a b => timeValF a ≤ timeValF b) (r0 :: rs') :=
        (List.pairwise_map (α := RawLrcLine)).mp hasc
      have hp : List.Pairwise (fun a b : LyricLine => a.time ≤ b.time)
          ((r0 :: rs').map (fun r => (⟨timeValF r, pyStrip r.text⟩ : LyricLine))) :=
        List.pairwise_map.mpr (hp0.imp (fun hab => hab))
      exact congrArg some
        (List.mergeSort_of_sorted (hp.imp (fun hab => decide_eq_true hab)))

lemma parse_lrc_blobOf_single (r : RawLrcLine) (h : wellFormedRaw r)
    (hok : floatTimeOfRaw r = some (timeValF r)) :
    parse_lrc (blobOf [r]) =
      some (if timeValF r > 8000
        then [⟨5000, ['.', '.', '.']⟩, ⟨timeValF r, pyStrip r.text⟩]
        else [⟨timeValF r, pyStrip r.text⟩]) := by
  have hps := parsedSorted_blobOf [r]
    (by intro x hx; rcases List.mem_singleton.mp hx with rfl; exact h)
    (by intro x hx; rcases List.mem_singleton.mp hx with rfl; exact hok)
    (by simp)
  rw [List.map_cons, List.map_nil] at hps
  rw [parse_lrc_of_sorted_cons _ _ _ hps]

lemma parseLine_time_nonneg (line : List Char) (ll : LyricLine)
    (h : '-' ∉ line) (hp : parseLine line = LineOutcome.ok ll) : 0 ≤ ll.time := by
  unfold parseLine at hp
  cases h1 : line.findIdx? (fun c => c == '[') with
  | none =>
      rw [h1] at hp
      exact absurd hp (by simp)
  | some s =>
      rw [h1] at hp
      cases h2 : line.findIdx? (fun c => c == ']') with
      | none =>
          rw [h2] at hp
          exact absurd hp (by simp)
      | some e =>
          rw [h2] at hp
          dsimp only at hp
          have hsub : ∀ a ∈ pySlice line (s + 1) e, a ∈ line := by
            intro a ha
            unfold pySlice at ha
            exact (List.take_sublist e line).subset
              ((List.drop_sublist (s + 1) (line.take e)).subset ha)
          cases h3 : splitOnChar ':' (pySlice line (s + 1) e) with
          | nil =>
              rw [h3] at hp
              exact absurd hp (by simp)
          | cons p0 ps =>
              rw [h3] at hp
              cases ps with
              | nil =>
                  dsimp only at hp
                  exact absurd hp (by simp)
              | cons p1 ps' =>
                  dsimp only at hp
                  have hp0mem : ∀ a ∈ p0, a ∈ pySlice line (s + 1) e :=
                    mem_of_mem_splitOnChar ':' (pySlice line (s + 1) e) p0
                      (by rw [h3]; exact List.mem_cons_self _ _)
                  have hp1mem : ∀ a ∈ p1, a ∈ pySlice line (s + 1) e :=
                    mem_of_mem_splitOnChar ':' (pySlice line (s + 1) e) p1
                      (by rw [h3]
                          exact List.mem_cons_of_mem _ (List.mem_cons_self _ _))
                  cases h4 : pyInt p0 with
                  | none =>
                      rw [h4] at hp
                      cases h5 : pyFloat p1 <;> rw [h5] at hp <;>
                        dsimp only at hp <;> exact absurd hp (by simp)
                  | some m =>
                      rw [h4] at hp
                      cases h5 : pyFloat p1 with
                      | none =>
                          rw [h5] at hp
                          dsimp only at hp
                          exact absurd hp (by simp)
                      | some sec =>
                          rw [h5] at hp
                          dsimp only at hp
                          cases h6 : intToF64 (m * 60) with
                          | none =>
                              rw [h6] at hp
                              exact absurd hp (by simp)
                          | some mf =>
                              rw [h6] at hp
                              dsimp only at hp
                              cases h7 : pyTrunc (fmul (fadd mf sec) F1000) with
                              | none =>
                                  rw [h7] at hp
                                  exact absurd hp (by simp)
                              | some t =>
                                  rw [h7] at hp
                                  dsimp only at hp
                                  injection hp with hp
                                  rw [← hp]
                                  show 0 ≤ t
                                  have hm0 : '-' ∉ p0 :=
                                    fun hc => h (hsub '-' (hp0mem '-' hc))
                                  have hm1 : '-' ∉ p1 :=
                                    fun hc => h (hsub '-' (hp1mem '-' hc))
                                  have hmn : (0 : Int) ≤ m :=
                                    pyInt_nonneg p0 m hm0 h4
                                  have hsecn : sec.nonneg :=
                                    pyFloat_nonneg p1 sec hm1 h5
                                  have hmfn : mf.nonneg :=
                                    intToF64_nonneg (m * 60) mf
                                      (mul_nonneg hmn (by norm_num)) h6
                                  exact pyTrunc_nonneg_of _ t
                                    (fmul_nonneg _ _
                                      (fadd_nonneg _ _ hmfn hsecn) F1000_nonneg) h7

/-- The C4 counterexample line `[00:04.02]x`: in binary64, `4.02 * 1000` is
`4019.9999999999995`, which `int()` truncates to 4019. -/
def r402 : RawLrcLine := ⟨['0', '0'], ['0', '4'], ['0', '2'], ['x']⟩

/-- C4 (counterexample): the claimed formula
`time_ms = round((minutes*60 + seconds) * 1000)` does not hold of the
program.  On the single well-formed line `[00:04.02]x` (ascending, first
timestamp at most 8000 ms) the code computes `int((0*60 + 4.02) * 1000)` in
binary64 arithmetic, where `4.02 * 1000 = 4019.9999999999995`, so the stored
`time_ms` is 4019; the claimed `round((0*60 + (4 + 2/100)) * 1000)` is
4020. -/
theorem C4_parser_round_trip_counterexample :
    parse_lrc (blobOf [r402]) = some [⟨4019, ['x']⟩] ∧
    round (((0 : ℚ) * 60 + (4 + 2 / 100)) * 1000) = (4020 : Int) ∧
    (4019 : Int) ≠ 4020 := by
  refine ⟨?_, by norm_num [round_eq], by decide⟩
  rw [parse_lrc_blobOf_single r402 (by decide) (by decide), if_neg (by decide)]
  decide

/-- C4 (amended): parser round-trip with binary64-evaluated timestamps.  For
every well-formed LRC blob of N lines `[mm:ss.xx]text` whose timestamps — as
the program computes them, `int((minutes*60 + seconds) * 1000)` evaluated in
binary64 arithmetic, none overflowing — are ascending with the first at most
8000 ms, parse yields exactly N lines in ascending `time_ms` order, the i-th
carrying that binary64-evaluated `time_ms` and the original text after `]`
trimmed of surrounding whitespace. -/
theorem C4_parser_round_trip_amended (rs : List RawLrcLine)
    (hwf : ∀ r ∈ rs, wellFormedRaw r)
    (hok : ∀ r ∈ rs, floatTimeOfRaw r = some (timeValF r))
    (hasc : (rs.map timeValF).Pairwise (· ≤ ·))
    (hfirst : ∀ r0 ∈ rs.head?, timeValF r0 ≤ 8000) :
    parse_lrc (blobOf rs) =
      some (rs.map (fun r => ⟨timeValF r, pyStrip r.text⟩)) ∧
    ((rs.map (fun r => (⟨timeValF r, pyStrip r.text⟩ : LyricLine))).map
      LyricLine.time).Pairwise (· ≤ ·) ∧
    (rs.map (fun r => (⟨timeValF r, pyStrip r.text⟩ : LyricLine))).length =
      rs.length := by
  have hps := parsedSorted_blobOf rs hwf hok hasc
  refine ⟨?_, ?_, by rw [List.length_map]⟩
  · cases rs with
    | nil => exact parse_lrc_of_sorted_nil _ hps
    | cons r0 rs' =>
        rw [List.map_cons] at hps
        rw [parse_lrc_of_sorted_cons _ _ _ hps,
          if_neg (not_lt.mpr (hfirst r0 rfl)), List.map_cons]
  · rw [List.map_map]
    exact hasc

/-- C4 witness: the two-line blob `[00:05.00]hi`, `[00:09.10]yo` parses to
5000 ms and 9100 ms with trimmed texts, via the amended theorem. -/
theorem C4_parser_round_trip_amended_witness :
    parse_lrc (blobOf [wR1, wR2]) =
      some [⟨5000, ['h', 'i']⟩, ⟨9100, ['y', 'o']⟩] := by
  have h := C4_parser_round_trip_amended [wR1, wR2] (by decide) (by decide)
    (by decide)
    (by
      intro r0 hr0
      injection hr0 with hr0
      rw [← hr0]
      decide)
  rw [h.1]
  decide

/-- C5 (counterexample): on the blob `[00:09.00]hi` the parser does prepend a
synthetic line at 5000 ms, but its text is the three ASCII characters `...`,
not the single ellipsis character `…` the claim states. -/
theorem C5_gap_marker_counterexample :
    parse_lrc (blobOf [wC5]) =
      some [⟨5000, ['.', '.', '.']⟩, ⟨9000, ['h', 'i']⟩] ∧
    (['.', '.', '.'] : List Char) ≠ ['…'] := by
  constructor
  · rw [parse_lrc_blobOf_single wC5 (by decide) (by decide), if_pos (by decide)]
    decide
  · decide

/-- C5 (amended): whenever the parse result is returned, the parser prepends
the synthetic line `{time_ms: 5000, text: "..."}` (three ASCII dots) exactly
when the parsed sequence is non-empty and its first line's time exceeds
8000 ms, and never adds the marker to an empty sequence. -/
theorem C5_gap_marker_amended (s : List Char) :
    (parsedSorted s = some [] → parse_lrc s = some []) ∧
    (∀ first rest, parsedSorted s = some (first :: rest) →
      (8000 < first.time →
        parse_lrc s = some (⟨5000, ['.', '.', '.']⟩ :: first :: rest)) ∧
      (first.time ≤ 8000 → parse_lrc s = some (first :: rest))) := by
  constructor
  · intro h
    exact parse_lrc_of_sorted_nil s h
  · intro first rest h
    constructor
    · intro hgt
      rw [parse_lrc_of_sorted_cons s first rest h, if_pos hgt]
    · intro hle
      rw [parse_lrc_of_sorted_cons s first rest h, if_neg (by omega)]

/-- C5 witness: at a first line of 9000 ms the marker is prepended, at
7000 ms it is not, matching the claim's two examples. -/
theorem C5_gap_marker_amended_witness :
    parse_lrc (blobOf [wC5]) =
      some (⟨5000, ['.', '.', '.']⟩ :: [⟨9000, ['h', 'i']⟩]) ∧
    parse_lrc (blobOf [wC5b]) = some [⟨7000, ['h', 'i']⟩] := by
  have hps9 : parsedSorted (blobOf [wC5]) = some [⟨9000, ['h', 'i']⟩] := by
    have h := parsedSorted_blobOf [wC5] (by decide) (by decide) (by simp)
    rw [List.map_cons, List.map_nil] at h
    rw [h]
    decide
  have hps7 : parsedSorted (blobOf [wC5b]) = some [⟨7000, ['h', 'i']⟩] := by
    have h := parsedSorted_blobOf [wC5b] (by decide) (by decide) (by simp)
    rw [List.map_cons, List.map_nil] at h
    rw [h]
    decide
  constructor
  · exact ((C5_gap_marker_amended (blobOf [wC5])).2 ⟨9000, ['h', 'i']⟩ []
      hps9).1 (by decide)
  · exact ((C5_gap_marker_amended (blobOf [wC5b])).2 ⟨7000, ['h', 'i']⟩ []
      hps7).2 (by decide)

/-- The C6 counterexample line `[00:inf]x`: Python's `float("inf")` succeeds,
and `int(inf)` then raises an `OverflowError` that `except (ValueError,
IndexError)` does not catch. -/
def exInf : List Char := ['[', '0', '0', ':', 'i', 'n', 'f', ']', 'x']

/-- C6 (counterexample): parse can fail as a whole.  On the single line
`[00:inf]x`, `float("inf")` succeeds and `int((0*60 + inf) * 1000) =
int(inf)` raises `OverflowError`; the `except (ValueError, IndexError)` at
main.py:168 does not catch it, so `parse_lrc` raises instead of returning a
(partial) sequence. -/
theorem C6_malformed_tolerance_counterexample :
    parse_lrc exInf = none ∧ parseLine exInf = LineOutcome.raised := by
  refine ⟨?_, by decide⟩
  apply parse_lrc_of_sorted_none
  unfold parsedSorted
  rw [splitOnChar_of_not_mem '\n' exInf (by decide),
    collectLines_cons_raised exInf [] (by decide) (by decide)]
  rfl

/-- C6 (amended): malformed tolerance restricted to caught errors.  Lines
failing with `ValueError`/`IndexError` (malformed brackets, non-numeric
fields, missing colon) are dropped silently: an all-unparseable-or-blank
blob yields the empty sequence; any blob none of whose lines raises an
uncaught `OverflowError` parses to some sequence; the mixed
3-valid/2-malformed blob yields exactly the 3 valid lines; and the empty
blob yields the empty sequence. -/
theorem C6_malformed_tolerance_amended (s : List Char)
    (h : ∀ line ∈ splitOnChar '\n' s,
      pyStrip line = [] ∨ parseLine line = LineOutcome.dropped) :
    parse_lrc s = some [] ∧
    (∀ s2 : List Char,
      (∀ line ∈ splitOnChar '\n' s2,
        pyStrip line = [] ∨ parseLine line ≠ LineOutcome.raised) →
      ∃ out, parse_lrc s2 = some out) ∧
    parse_lrc exC6 = some [⟨5000, ['a']⟩, ⟨20000, ['b']⟩, ⟨30000, ['c']⟩] ∧
    parse_lrc ([] : List Char) = some [] := by
  refine ⟨parse_lrc_of_unparseable s h, ?_, ?_, ?_⟩
  · intro s2 h2
    obtain ⟨out0, hout0⟩ := collectLines_isSome _ h2
    have hps : parsedSorted s2 = some (out0.mergeSort lyricLe) := by
      unfold parsedSorted
      rw [hout0]
      rfl
    cases hms : out0.mergeSort lyricLe with
    | nil =>
        refine ⟨[], parse_lrc_of_sorted_nil s2 ?_⟩
        rw [hps, hms]
    | cons f rest0 =>
        refine ⟨_, parse_lrc_of_sorted_cons s2 f rest0 ?_⟩
        rw [hps, hms]
  · have hsplit : splitOnChar '\n' exC6 = [renderRawLine wV1, badLine1,
        renderRawLine wV2, badLine2, renderRawLine wV3] := by
      show splitOnChar '\n' (joinLines [renderRawLine wV1, badLine1,
        renderRawLine wV2, badLine2, renderRawLine wV3]) = _
      exact splitOnChar_joinLines _ (by simp) (by decide)
    have hcoll : collectLines [renderRawLine wV1, badLine1, renderRawLine wV2,
        badLine2, renderRawLine wV3] =
        some [⟨5000, ['a']⟩, ⟨20000, ['b']⟩, ⟨30000, ['c']⟩] := by
      rw [collectLines_cons_ok _ _ ⟨5000, ['a']⟩ (by decide) (by decide),
        collectLines_cons_dropped _ _ (by decide) (by decide),
        collectLines_cons_ok _ _ ⟨20000, ['b']⟩ (by decide) (by decide),
        collectLines_cons_dropped _ _ (by decide) (by decide),
        collectLines_cons_ok _ _ ⟨30000, ['c']⟩ (by decide) (by decide)]
      rfl
    have hps : parsedSorted exC6 =
        some [⟨5000, ['a']⟩, ⟨20000, ['b']⟩, ⟨30000, ['c']⟩] := by
      unfold parsedSorted
      rw [hsplit, hcoll]
      show some (List.mergeSort [⟨5000, ['a']⟩, ⟨20000, ['b']⟩,
        ⟨30000, ['c']⟩] lyricLe) = _
      rw [List.mergeSort_of_sorted (by decide)]
    rw [parse_lrc_of_sorted_cons _ _ _ hps, if_neg (by decide)]
  · exact parse_lrc_of_unparseable [] (by decide)

/-- C6 witness: the all-unparseable blob `zz` yields the empty sequence; the
mixed blob parses to exactly its three valid lines; the empty blob yields the
empty sequence. -/
theorem C6_malformed_tolerance_amended_witness :
    parse_lrc wGarbage = some [] ∧
    (∃ out, parse_lrc exC6 = some out) ∧
    parse_lrc exC6 = some [⟨5000, ['a']⟩, ⟨20000, ['b']⟩, ⟨30000, ['c']⟩] ∧
    parse_lrc ([] : List Char) = some [] := by
  have h := C6_malformed_tolerance_amended wGarbage (by decide)
  exact ⟨h.1, h.2.1 exC6 (by decide), h.2.2.1, h.2.2.2⟩

/-- C9 (amended): for every blob containing no `-` character, every line in
any sequence the parse returns has non-negative `time_ms` (the synthetic
5000 ms marker included). -/
theorem C9_nonneg_amended (s : List Char) (h : '-' ∉ s) :
    ∀ out, parse_lrc s = some out → ∀ ll ∈ out, 0 ≤ ll.time := by
  intro out hout ll hll
  unfold parse_lrc at hout
  cases hps : parsedSorted s with
  | none =>
      rw [hps] at hout
      exact absurd hout (by simp)
  | some lys =>
      rw [hps] at hout
      have hmem_s : ∀ x ∈ lys, 0 ≤ x.time := by
        intro x hx
        unfold parsedSorted at hps
        cases hcl : collectLines (splitOnChar '\n' s) with
        | none =>
            rw [hcl] at hps
            exact absurd hps (by simp)
        | some raw =>
            rw [hcl] at hps
            injection hps with hps
            rw [← hps] at hx
            rw [List.mem_mergeSort] at hx
            obtain ⟨line, hline, hok⟩ := collectLines_mem _ _ hcl x hx
            exact parseLine_time_nonneg line x
              (fun hc => h (mem_of_mem_splitOnChar '\n' s line hline '-' hc)) hok
      cases lys with
      | nil =>
          dsimp only at hout
          injection hout with hout
          rw [← hout] at hll
          exact absurd hll (by simp)
      | cons first rest =>
          dsimp only at hout
          by_cases hgt : first.time > 8000
          · rw [if_pos hgt] at hout
            injection hout with hout
            rw [← hout] at hll
            rcases List.mem_cons.mp hll with rfl | hll
            · decide
            · exact hmem_s ll hll
          · rw [if_neg hgt] at hout
            injection hout with hout
            rw [← hout] at hll
            exact hmem_s ll hll

/-- C9 (counterexample): the blob `[-1:30.00]x` parses to a line with
`time_ms = -30000 < 0`, refuting the non-negativity claim for arbitrary
input blobs. -/
theorem C9_nonneg_counterexample :
    parse_lrc exC9 = some [⟨-30000, ['x']⟩] ∧ ((-30000 : Int) < 0) := by
  refine ⟨?_, by decide⟩
  have hps : parsedSorted exC9 = some [⟨-30000, ['x']⟩] := by
    unfold parsedSorted
    rw [splitOnChar_of_not_mem '\n' exC9 (by decide),
      collectLines_cons_ok exC9 [] ⟨-30000, ['x']⟩ (by decide) (by decide)]
    show some (List.mergeSort [⟨-30000, ['x']⟩] lyricLe) = _
    rw [List.mergeSort_of_sorted (List.pairwise_singleton _ _)]
  rw [parse_lrc_of_sorted_cons _ _ _ hps, if_neg (by decide)]

/-- C9 witness: the minus-free blob `[00:05.00]hi` parses to a single line
and the amended theorem yields its non-negativity. -/
theorem C9_nonneg_amended_witness :
    parse_lrc (blobOf [wC9w]) = some [⟨5000, ['h', 'i']⟩] ∧
    (0 : Int) ≤ (5000 : Int) := by
  have heval : parse_lrc (blobOf [wC9w]) = some [⟨5000, ['h', 'i']⟩] := by
    rw [parse_lrc_blobOf_single wC9w (by decide) (by decide), if_neg (by decide)]
    decide
  refine ⟨heval, ?_⟩
  exact C9_nonneg_amended (blobOf [wC9w]) (by decide) [⟨5000, ['h', 'i']⟩]
    heval ⟨5000, ['h', 'i']⟩ (List.mem_cons_self _ _)
